import Mathlib

/-!
Shallow embedding of `addons/dexie-export-import/src/import.ts` (the
chunked import loop of the Dexie export/import addon) plus models of its
external collaborators, and theorems settling the frozen claims about it.

Modelling conventions:
* JavaScript values stored in row buffers are modelled by the inductive
  `JsVal`; `JsVal.undefined` stands for `undefined` (an omitted argument, a
  missing array slot).  Indexing `row[0]` / `row[1]` on a two element array
  is modelled by `JsVal.fstOf` / `JsVal.sndOf`, returning `undefined` on
  non-arrays, as property access in JavaScript does.
* The streaming parser (`json-stream.ts`, an external collaborator per the
  spec) is modelled as a list of pending chunks, each chunk a list of parse
  events that append structure to the currently parsed export file, exactly
  the way the incremental JSON parser appends keys, table entries and rows
  in document order.  `done()` and `eof()` both hold when no chunk is
  pending (the source only ever uses them through the conjunction
  `!done() && !eof()` in the import loop, and `!eof()` in the load loop).
* The row codec `TSON.revive` is an opaque collaborator; it is passed in as
  a function parameter `revive`.
* The storage engine (Dexie core, not part of the sources under scrutiny)
  is modelled from the spec: `db.table` resolves a declared table and is
  absent otherwise; `bulkAdd`/`bulkPut` append the pair of lists
  `(values, keys)` handed to them as one batch; the `transaction` wrapper
  runs the body and restores the database wholesale when the body fails
  (spec section 4.5: any error or abort rolls back all writes).
* Each write is additionally recorded in a ghost log (`ImpState.log`),
  every queue-trimming pass is recorded in `ImpState.popPhases`, every
  observer invocation snapshot in `ImpState.snapshots`, and the result
  records whether an abort was raised by the final `done = true` observer
  invocation (`ImportResult.abortedAtFinal`).  These ghost fields never
  influence control flow; they only make the claims statable.
-/

namespace DexieImport

/-- A JavaScript value as it occurs in row buffers: `undefined`, a number,
or a two-element array `[k, v]` (the key/value pair of non-inbound rows). -/
inductive JsVal where
  | undefined : JsVal
  | num : Nat → JsVal
  | arr2 : JsVal → JsVal → JsVal
deriving DecidableEq, Repr

/-- `row[0]` in JavaScript: first slot of a two-element array, `undefined`
otherwise. -/
def JsVal.fstOf : JsVal → JsVal
  | .arr2 k _ => k
  | _ => .undefined

/-- `row[1]` in JavaScript: second slot of a two-element array, `undefined`
otherwise. -/
def JsVal.sndOf : JsVal → JsVal
  | .arr2 _ v => v
  | _ => .undefined

/-- One entry of the export's schema manifest (`json-structure.ts`):
table name, schema definition string and declared row count. -/
structure TableSchema where
  name : String
  schema : String
  rowCount : Nat
deriving DecidableEq, Repr

/-- One entry of the export's `data` array: the streaming unit for a table.
`rows` is `none` while the parser has not yet reached the `rows` key of this
entry (the source tests `!tableExport.rows`); `complete` models the
`complete` marker the streaming parser sets on the rows array once the
source has delivered every row of the table. -/
structure TableExport where
  tableName : String
  inbound : Bool
  rows : Option (List JsVal)
  complete : Bool
deriving DecidableEq, Repr

/-- The `data : DexieExportedDatabase` part of an export file.  Fields are
`Option` because the incremental parser populates them one by one; a
missing field is the JavaScript `undefined` the source tests with `!`. -/
structure DatabaseExport where
  databaseName : Option String
  databaseVersion : Option Nat
  tables : Option (List TableSchema)
  dataArr : Option (List TableExport)
deriving DecidableEq, Repr

/-- The export envelope (`stream.result`). -/
structure ExportFile where
  formatName : Option String
  formatVersion : Option Nat
  data : Option DatabaseExport
deriving DecidableEq, Repr

def emptyDbExport : DatabaseExport := ⟨none, none, none, none⟩

/-- One structural step the incremental JSON parser may take while
consuming a chunk, in document order of a Dexie export file. -/
inductive StreamEvent where
  | setFormatName (s : String)
  | setFormatVersion (v : Nat)
  | beginData
  | setDatabaseName (s : String)
  | setDatabaseVersion (v : Nat)
  | setTables (ts : List TableSchema)
  | beginDataArr
  | startTable (name : String) (inbound : Bool)
  | beginRows
  | pushRow (r : JsVal)
  | endRows
deriving DecidableEq, Repr

abbrev Chunk := List StreamEvent

/-- Apply a mutation to the last element of the list (the parser always
appends to the entry it is currently filling in). -/
def updateLast (f : TableExport → TableExport) : List TableExport → List TableExport
  | [] => []
  | [te] => [f te]
  | te :: rest => te :: updateLast f rest

def DatabaseExport.applyEvent (d : DatabaseExport) : StreamEvent → DatabaseExport
  | .setDatabaseName s => { d with databaseName := some s }
  | .setDatabaseVersion v => { d with databaseVersion := some v }
  | .setTables ts => { d with tables := some ts }
  | .beginDataArr => { d with dataArr := some [] }
  | .startTable n i =>
      { d with dataArr := some ((d.dataArr.getD []) ++ [⟨n, i, none, false⟩]) }
  | .beginRows =>
      { d with dataArr := d.dataArr.map (updateLast fun te => { te with rows := some [] }) }
  | .pushRow r =>
      { d with dataArr := d.dataArr.map (updateLast fun te =>
          { te with rows := some ((te.rows.getD []) ++ [r]) }) }
  | .endRows =>
      { d with dataArr := d.dataArr.map (updateLast fun te => { te with complete := true }) }
  | _ => d

def ExportFile.applyEvent (f : ExportFile) : StreamEvent → ExportFile
  | .setFormatName s => { f with formatName := some s }
  | .setFormatVersion v => { f with formatVersion := some v }
  | .beginData => { f with data := some (f.data.getD emptyDbExport) }
  | e => { f with data := f.data.map (·.applyEvent e) }

def ExportFile.applyChunk (f : ExportFile) (c : Chunk) : ExportFile :=
  c.foldl ExportFile.applyEvent f

def DatabaseExport.applyChunk (d : DatabaseExport) (c : Chunk) : DatabaseExport :=
  c.foldl DatabaseExport.applyEvent d

/-- The live stream handle (`JsonStream`): the currently parsed structure
plus the chunks not yet pulled.  `done()`/`eof()` hold when nothing is
pending. -/
structure JsonStream where
  result : ExportFile
  pending : List Chunk
deriving DecidableEq, Repr

/-- `!stream.result.data || !stream.result.data.data` — the condition of
the bootstrap pull loop in `loadUntilWeGotEnoughData`. -/
def needMoreData (f : ExportFile) : Bool :=
  match f.data with
  | none => true
  | some d => d.dataArr.isNone

/-- The pull loop of `loadUntilWeGotEnoughData`:
`while (!stream.eof() && (!stream.result.data || !stream.result.data.data)) await stream.pull(CHUNK_SIZE)`. -/
def pullPhaseAux : List Chunk → ExportFile → JsonStream
  | [], f => ⟨f, []⟩
  | c :: rest, f =>
      if needMoreData f then pullPhaseAux rest (f.applyChunk c) else ⟨f, c :: rest⟩

def pullPhase (s : JsonStream) : JsonStream := pullPhaseAux s.pending s.result

/-- Modelled from the spec: the export format's version ceiling
(`VERSION` of `json-structure.ts`, not among the sources), a process-wide
constant; the spec's literal scenario uses `formatVersion: 1` as valid. -/
def VERSION : Nat := 1

/-- The error taxonomy of spec section 7, as raised by `import.ts`. -/
inductive ImportError where
  | formatError
  | unsupportedVersion
  | malformed (field : String)
  | nameMismatch
  | versionMismatch
  | missingTable (t : String)
  | primKeyMismatch (t : String)
  | aborted
  | typeError
deriving DecidableEq, Repr

/-- `dbExportFile.formatVersion! > VERSION` — in JavaScript a missing
version compares as `undefined > VERSION`, which is false. -/
def versionTooBig : Option Nat → Bool
  | some v => decide (VERSION < v)
  | none => false

/-- JavaScript falsiness of the optional `databaseName` string as tested
by `!dbExportFile.data!.databaseName` (source line 165): absent
(`undefined`) or the empty string. -/
def strFalsy : Option String → Bool
  | none => true
  | some s => decide (s = "")

/-- JavaScript falsiness of the optional `databaseVersion` number as
tested by `!dbExportFile.data!.databaseVersion` (source line 168): absent
(`undefined`) or zero. -/
def natFalsy : Option Nat → Bool
  | none => true
  | some v => decide (v = 0)

/-- The validation chain at the end of `loadUntilWeGotEnoughData`
(source lines 157-173), in source order.  `!dbExportFile.data!` and
`!...tables` are falsy only when the object/array is absent (objects and
arrays are truthy in JavaScript, even when empty), hence `isNone`; the
string and number fields use full JavaScript falsiness. -/
def validateHeader (f : ExportFile) : Except ImportError Unit :=
  if f.formatName ≠ some "dexie" then .error .formatError
  else if versionTooBig f.formatVersion then .error .unsupportedVersion
  else
    match f.data with
    | none => .error (.malformed "data")
    | some d =>
      if strFalsy d.databaseName then .error (.malformed "databaseName")
      else if natFalsy d.databaseVersion then .error (.malformed "databaseVersion")
      else if d.tables.isNone then .error (.malformed "tables")
      else .ok ()

/-- `loadUntilWeGotEnoughData` (source lines 148-175): pull until the
header and the `data` array are present, validate, and hand back the
still-live stream. -/
def loadUntilWeGotEnoughData (s : JsonStream) : Except ImportError JsonStream :=
  let s2 := pullPhase s
  match validateHeader s2.result with
  | .error e => .error e
  | .ok _ => .ok s2

/-- One batch handed to `bulkAdd`/`bulkPut`: the `values` list and the
optional separate `keys` list (absent for inbound tables). -/
structure Batch where
  values : List JsVal
  keys : Option (List JsVal)
deriving DecidableEq, Repr

/-- A table of the target database: declared name, declared primary key
source string, and the batches written so far. -/
structure DBTable where
  name : String
  primKeySrc : String
  content : List Batch
deriving DecidableEq, Repr

structure DB where
  name : String
  verno : Nat
  tables : List DBTable
deriving DecidableEq, Repr

/-- Modelled from the spec (section 6, storage engine collaborator):
`db.table(name)` resolves a declared table; for a table absent from the
installed database it is absent (the source then takes its
`if (!table)` missing-table branch). -/
def DB.table (db : DB) (n : String) : Option DBTable :=
  db.tables.find? (fun t => t.name = n)

def DB.clearTable (db : DB) (n : String) : DB :=
  { db with tables := db.tables.map fun t =>
      if t.name = n then { t with content := [] } else t }

def DB.writeBatch (db : DB) (n : String) (b : Batch) : DB :=
  { db with tables := db.tables.map fun t =>
      if t.name = n then { t with content := t.content ++ [b] } else t }

/-- The progress snapshot handed to the observer (source interface
`ImportProgress`). -/
structure ImportProgress where
  totalTables : Nat
  completedTables : Nat
  totalRows : Option Nat
  completedRows : Nat
  done : Bool
deriving DecidableEq, Repr

/-- The recognized options (source interface `ImportOptions`).  The
observer receives its invocation index (the user closure may count calls)
and the current progress snapshot. -/
structure ImportOptions where
  noTransaction : Bool := false
  acceptMissingTables : Bool := false
  acceptVersionDiff : Bool := false
  acceptNameDiff : Bool := false
  acceptChangedPrimaryKey : Bool := false
  overwriteValues : Bool := false
  clearTablesBeforeImport : Bool := false
  filter : Option (String → JsVal → JsVal → Bool) := none
  progressCallback : Option (Nat → ImportProgress → Bool) := none

/-- Ghost record of one storage-engine write: the table written, its
inbound flag, the revived buffered rows at the time of the write, and the
`values`/`keys` actually handed to `bulkAdd`/`bulkPut`. -/
structure LogEntry where
  table : String
  inbound : Bool
  revived : List JsVal
  values : List JsVal
  keys : Option (List JsVal)
deriving DecidableEq, Repr

/-- The interpreter state threaded through `importAll`. -/
structure ImpState where
  db : DB
  log : List LogEntry
  progress : ImportProgress
  cbCount : Nat
  snapshots : List ImportProgress
  popPhases : List (List TableExport × List TableExport)
  d : DatabaseExport
  pending : List Chunk
deriving Repr

/-- `if (progressCallback) { if (progressCallback(progress)) throw ... }`:
invoke the observer when configured; `true` means abort requested. -/
def invokeCb (opts : ImportOptions) (st : ImpState) : ImpState × Bool :=
  match opts.progressCallback with
  | none => (st, false)
  | some cb =>
      (({ st with
          cbCount := st.cbCount + 1,
          snapshots := st.snapshots ++ [st.progress] }), cb st.cbCount st.progress)

/-- Characters before the first comma. -/
def takeUntilComma : List Char → List Char
  | [] => []
  | c :: rest => if c = ',' then [] else c :: takeUntilComma rest

/-- First comma-separated field of a schema string:
`tableSchemaStr.split(',')[0]` (source line 101). -/
def firstField (s : String) : String := ⟨takeUntilComma s.data⟩

/-- Source lines 104-113.  `rows` (here `rows2`) is the freshly mapped
array of revived rows; note that for non-inbound tables the source builds
`keys` from `filteredRows` but `values` from the unfiltered `rows`
(line 113: `[filteredRows.map(row=>row[0]), rows.map(row=>row[1])]`). -/
def computeBatch (opts : ImportOptions) (revive : JsVal → JsVal) (tableName : String)
    (inbound : Bool) (rows : List JsVal) : List JsVal × Batch :=
  let rows2 := rows.map revive
  let filteredRows :=
    match opts.filter with
    | none => rows2
    | some f =>
      if inbound then rows2.filter (fun v => f tableName v .undefined)
      else rows2.filter (fun r => f tableName r.sndOf r.fstOf)
  if inbound then (rows2, ⟨filteredRows, none⟩)
  else (rows2, ⟨rows2.map JsVal.sndOf, some (filteredRows.map JsVal.fstOf)⟩)

/-- Source lines 115-127: clear when configured, hand the batch to
`bulkPut`/`bulkAdd` (both modelled as appending the `(values, keys)` pair
to the table and to the ghost log), advance `completedRows` by the length
of the freshly mapped rows array.  Source line 124 reads `complete` off
that freshly mapped array, which never carries the marker, so
`completedTables` is untouched; source line 127 splices that same fresh
array, so the buffered `tableExport.rows` is not truncated — the
embedding mirrors both. -/
def writeStep (opts : ImportOptions) (revive : JsVal → JsVal) (te : TableExport)
    (rows : List JsVal) (st1 : ImpState) : ImpState :=
  match computeBatch opts revive te.tableName te.inbound rows with
  | (rows2, batch) =>
    let st2 :=
      if opts.clearTablesBeforeImport then
        { st1 with db := st1.db.clearTable te.tableName }
      else st1
    { st2 with
      db := st2.db.writeBatch te.tableName batch,
      log := st2.log ++
        [⟨te.tableName, te.inbound, rows2, batch.values, batch.keys⟩],
      progress := { st2.progress with
        completedRows := st2.progress.completedRows + rows2.length } }

/-- Source lines 91-127 after the observer invocation: resolve the target
table (line 92), look the table up in the manifest (line 93 — a TypeError
on a missing manifest entry, before the missing-table handling), run the
missing-table and primary-key checks, then write.  `(st, none)` means the
pass continues with the next entry. -/
def processEntryAfterCb (opts : ImportOptions) (revive : JsVal → JsVal)
    (te : TableExport) (rows : List JsVal) (st1 : ImpState) :
    ImpState × Option ImportError :=
  match (st1.d.tables.getD []).find? (fun t => t.name = te.tableName) with
  | none => (st1, some .typeError)
  | some ts =>
    match st1.db.table te.tableName with
    | none =>
      if opts.acceptMissingTables = false then
        (st1, some (.missingTable te.tableName))
      else (st1, none)
    | some table =>
      if opts.acceptChangedPrimaryKey = false ∧
          firstField ts.schema ≠ table.primKeySrc then
        (st1, some (.primKeyMismatch te.tableName))
      else (writeStep opts revive te rows st1, none)

/-- Source lines 87-127: one non-skipped entry — observer invocation
(may abort), then the per-table checks and the write. -/
def processEntry (opts : ImportOptions) (revive : JsVal → JsVal)
    (te : TableExport) (rows : List JsVal) (st : ImpState) :
    ImpState × Option ImportError :=
  match invokeCb opts st with
  | (st1, true) => (st1, some .aborted)
  | (st1, false) => processEntryAfterCb opts revive te rows st1

/-- The inner pass `for (const tableExport of dbExport.data)` of
`importAll` (source lines 82-128): break on a not-yet-parsed rows buffer
(line 83), skip an entry that is complete and empty (lines 84-85),
otherwise process it and continue unless it raised. -/
def innerPass (opts : ImportOptions) (revive : JsVal → JsVal) :
    List TableExport → ImpState → ImpState × Option ImportError
  | [], st => (st, none)
  | te :: rest, st =>
    match te.rows with
    | none => (st, none)
    | some rows =>
      if te.complete = true ∧ rows = [] then innerPass opts revive rest st
      else
        match processEntry opts revive te rows st with
        | (st1, some err) => (st1, some err)
        | (st1, none) => innerPass opts revive rest st1

/-- Source lines 131-134: trim leading queue entries whose rows array
carries the `complete` marker.  Reading `.complete` off an absent rows
array is a TypeError (`none`). -/
def popLoop : List TableExport → Option (List TableExport)
  | [] => some []
  | te :: rest =>
    match te.rows with
    | none => none
    | some _ => if te.complete then popLoop rest else some (te :: rest)

/-- `await Dexie.waitFor(jsonStream.pull(CHUNK_SIZE))`: consume the next
pending chunk, letting the parser append to `dbExport`. -/
def pullChunk (st : ImpState) : ImpState :=
  match st.pending with
  | [] => st
  | c :: rest => { st with d := st.d.applyChunk c, pending := rest }

/-- The tail of one loop iteration after a successful queue trimming:
record the trimmed queue (and the ghost pop phase), then pull the next
chunk when the stream is not finished (source lines 135-138). -/
def afterPop (st1 : ImpState) (arr2 : List TableExport) : ImpState :=
  let st2 := { st1 with
    d := { st1.d with dataArr := some arr2 },
    popPhases := st1.popPhases ++ [(st1.d.dataArr.getD [], arr2)] }
  if st2.pending = [] then st2 else pullChunk st2

/-- One iteration of the `do { ... }` body of `importAll`
(source lines 81-138): inner pass, queue trimming, then a pull when the
stream is not finished. -/
def outerBody (opts : ImportOptions) (revive : JsVal → JsVal) (st : ImpState) :
    ImpState × Option ImportError :=
  match st.d.dataArr with
  | none => (st, some .typeError)
  | some arr =>
    match innerPass opts revive arr st with
    | (st1, some err) => (st1, some err)
    | (st1, none) =>
      match popLoop (st1.d.dataArr.getD []) with
      | none => (st1, some .typeError)
      | some arr2 => (afterPop st1 arr2, none)

/-- The `do { ... } while (!jsonStream.done() && !jsonStream.eof())` loop.
Every continuing iteration has performed a pull, so `pending.length + 1`
iterations always suffice; the zero-fuel branch is unreachable. -/
def outerLoopAux (opts : ImportOptions) (revive : JsVal → JsVal) :
    Nat → ImpState → ImpState × Option ImportError
  | 0, st => (st, none)
  | n + 1, st =>
    match outerBody opts revive st with
    | (st1, some err) => (st1, some err)
    | (st1, none) =>
      if st1.pending = [] then (st1, none) else outerLoopAux opts revive n st1

/-- `importAll` (source lines 80-140). -/
def importAll (opts : ImportOptions) (revive : JsVal → JsVal) (st : ImpState) :
    ImpState × Option ImportError :=
  outerLoopAux opts revive (st.pending.length + 1) st

/-- The observable outcome of one `importInto` call.  `db`, `log`,
`snapshots`, `popPhases` are the final database and the ghost records;
`abortedAtFinal` marks an abort raised by the final `done = true`
observer invocation (which in the source runs after the transaction has
already committed). -/
structure ImportResult where
  outcome : Option ImportError
  db : DB
  log : List LogEntry
  snapshots : List ImportProgress
  popPhases : List (List TableExport × List TableExport)
  abortedAtFinal : Bool
deriving Repr

def mkResult (e : Option ImportError) (st : ImpState) (af : Bool) : ImportResult :=
  ⟨e, st.db, st.log, st.snapshots, st.popPhases, af⟩

/-- Source lines 61-68: the initial interpreter state — the freshly
initialised `progress` object (with `totalRows` summed over the
manifest's `rowCount` values and `totalTables` its length), the captured
`dbExport` reference and the stream's remaining chunks. -/
def initState (db : DB) (stream2 : JsonStream) : ImpState :=
  ⟨db, [],
   ⟨((stream2.result.data.getD emptyDbExport).tables.getD []).length, 0,
    some ((((stream2.result.data.getD emptyDbExport).tables.getD []).map
      TableSchema.rowCount).sum),
    0, false⟩,
   0, [], [], stream2.result.data.getD emptyDbExport, stream2.pending⟩

/-- Source lines 74-78: run `importAll` bare (`noTransaction`) or inside
`db.transaction('rw', db.tables, importAll)`.  The transaction primitive
is modelled from the spec (section 4.5): when the body fails, every write
is rolled back, restoring the database as it was when the transaction
started; mutations of the shared `progress` object, the consumed stream
and the ghost records survive, as JavaScript object mutations do. -/
def runBody (opts : ImportOptions) (revive : JsVal → JsVal) (st1 : ImpState) :
    ImpState × Option ImportError :=
  if opts.noTransaction then importAll opts revive st1
  else
    match importAll opts revive st1 with
    | (stE, some err) => ({ stE with db := st1.db }, some err)
    | (stO, none) => (stO, none)

/-- Source lines 141-145: set `progress.done`, then invoke the observer
one final time — note this runs after the transaction has already
committed. -/
def finalPhase (opts : ImportOptions) (st2 : ImpState) : ImportResult :=
  match invokeCb opts { st2 with progress := { st2.progress with done := true } } with
  | (st4, true) => mkResult (some .aborted) st4 true
  | (st4, false) => mkResult none st4 false

/-- Source lines 74-145 after the initial observer invocation: the
(possibly transactional) import body followed by the final phase. -/
def stage2 (opts : ImportOptions) (revive : JsVal → JsVal) (st1 : ImpState) :
    ImportResult :=
  match runBody opts revive st1 with
  | (st2, some err) => mkResult (some err) st2 false
  | (st2, none) => finalPhase opts st2

/-- Source lines 52-146 once the stream is loaded: global name/version
checks, progress initialisation, initial observer invocation, the
(possibly transactional) import body, and the final observer
invocation. -/
def importIntoLoaded (db : DB) (stream2 : JsonStream) (opts : ImportOptions)
    (revive : JsVal → JsVal) : ImportResult :=
  if opts.acceptNameDiff = false ∧
      (stream2.result.data.getD emptyDbExport).databaseName ≠ some db.name then
    ⟨some .nameMismatch, db, [], [], [], false⟩
  else if opts.acceptVersionDiff = false ∧
      (stream2.result.data.getD emptyDbExport).databaseVersion ≠ some db.verno then
    ⟨some .versionMismatch, db, [], [], [], false⟩
  else
    match invokeCb opts (initState db stream2) with
    | (st1, true) => mkResult (some .aborted) st1 false
    | (st1, false) => stage2 opts revive st1

/-- `importInto` (source lines 46-146). -/
def importInto (db : DB) (exportedData : JsonStream) (opts : ImportOptions)
    (revive : JsVal → JsVal) : ImportResult :=
  match loadUntilWeGotEnoughData exportedData with
  | .error e => ⟨some e, db, [], [], [], false⟩
  | .ok stream2 => importIntoLoaded db stream2 opts revive

/-! ## Concrete scenarios used by counterexamples, code-bug evaluations and witnesses -/

/-- All values of all batches written during the run, in write order. -/
def allValues (r : ImportResult) : List JsVal :=
  r.log.foldr (fun e acc => e.values ++ acc) []

/-- Scenario A: one inbound table `t` (declared `rowCount` 2) whose rows
arrive across two pulls — row 1 with the header chunk, row 2 plus the
completion marker in the second chunk, with one further (empty) chunk
pending so the loop runs another inner pass. -/
def headerA : Chunk :=
  [.setFormatName "dexie", .setFormatVersion 1, .beginData,
   .setDatabaseName "db1", .setDatabaseVersion 1,
   .setTables [⟨"t", "id", 2⟩], .beginDataArr,
   .startTable "t" true, .beginRows, .pushRow (.num 1)]

def streamA : JsonStream :=
  ⟨⟨none, none, none⟩, [headerA, [.pushRow (.num 2), .endRows], []]⟩

def db_A : DB := ⟨"db1", 1, [⟨"t", "id", []⟩]⟩

def opts_A : ImportOptions := { progressCallback := some (fun _ _ => false) }

def runA : ImportResult := importInto db_A streamA opts_A id

/-- Scenario B: one non-inbound table `u`, both rows in the header chunk,
with a filter rejecting the row whose value slot is `num 10`. -/
def fB : String → JsVal → JsVal → Bool := fun _ v _ => decide (v ≠ JsVal.num 10)

def headerB : Chunk :=
  [.setFormatName "dexie", .setFormatVersion 1, .beginData,
   .setDatabaseName "db1", .setDatabaseVersion 1,
   .setTables [⟨"u", "k", 2⟩], .beginDataArr,
   .startTable "u" false, .beginRows,
   .pushRow (.arr2 (.num 1) (.num 10)), .pushRow (.arr2 (.num 2) (.num 20)),
   .endRows]

def streamB : JsonStream := ⟨⟨none, none, none⟩, [headerB]⟩

def db_B : DB := ⟨"db1", 1, [⟨"u", "k", []⟩]⟩

def opts_B : ImportOptions := { filter := some fB }

def runB : ImportResult := importInto db_B streamB opts_B id

/-- Scenario C: a fully delivered single-table export; the observer
requests abort on its third invocation — the final one, which carries
`done = true` and runs after the transaction has committed. -/
def headerC : Chunk :=
  [.setFormatName "dexie", .setFormatVersion 1, .beginData,
   .setDatabaseName "db1", .setDatabaseVersion 1,
   .setTables [⟨"t", "id", 1⟩], .beginDataArr,
   .startTable "t" true, .beginRows, .pushRow (.num 1), .endRows]

def streamC : JsonStream := ⟨⟨none, none, none⟩, [headerC]⟩

def db_C : DB := ⟨"db1", 1, [⟨"t", "id", []⟩]⟩

def opts_C : ImportOptions := { progressCallback := some (fun k _ => decide (k = 2)) }

def runC : ImportResult := importInto db_C streamC opts_C id

/-- Scenario D: as scenario C, but the observer requests abort on its
second invocation — a per-batch one, inside the transaction. -/
def opts_D : ImportOptions := { progressCallback := some (fun k _ => decide (k = 1)) }

def runD : ImportResult := importInto db_C streamC opts_D id

/-- Scenario E: the export names a table `m` absent from the target
database (present in the manifest), the override is enabled, and table
`t`'s second row only arrives with the second chunk. -/
def headerE : Chunk :=
  [.setFormatName "dexie", .setFormatVersion 1, .beginData,
   .setDatabaseName "db1", .setDatabaseVersion 1,
   .setTables [⟨"t", "id", 2⟩, ⟨"m", "id", 1⟩], .beginDataArr,
   .startTable "t" true, .beginRows, .pushRow (.num 1)]

def streamE : JsonStream :=
  ⟨⟨none, none, none⟩,
   [headerE,
    [.pushRow (.num 2), .endRows, .startTable "m" true, .beginRows,
     .pushRow (.num 7), .endRows]]⟩

def db_E : DB := ⟨"db1", 1, [⟨"t", "id", []⟩]⟩

def opts_E : ImportOptions := { acceptMissingTables := true }

def runE : ImportResult := importInto db_E streamE opts_E id

/-- Scenario D2: as scenario A, but the observer requests abort on its
third invocation — the per-batch one of the second inner pass, after the
first batch has already been written inside the transaction. -/
def opts_D2 : ImportOptions := { progressCallback := some (fun k _ => decide (k = 2)) }

def runD2 : ImportResult := importInto db_A streamA opts_D2 id

/-- The per-batch relation claim C1 asserts of every write: the rows
written are exactly the revived buffered rows the predicate accepts (for
inbound tables the predicate sees the revived value, for non-inbound ones
the key/value pair), in buffer order. -/
def claimFilterBatch (f : String → JsVal → JsVal → Bool) (e : LogEntry) : Bool :=
  if e.inbound then
    decide (e.values = e.revived.filter (fun v => f e.table v .undefined)) &&
    decide (e.keys = none)
  else
    decide (e.values =
      (e.revived.filter (fun r => f e.table r.sndOf r.fstOf)).map JsVal.sndOf) &&
    decide (e.keys =
      some ((e.revived.filter (fun r => f e.table r.sndOf r.fstOf)).map JsVal.fstOf))

/-- What each write actually satisfies when a filter is configured: for
inbound tables the claim's relation; for non-inbound tables the keys list
is filtered (in order) but the values list is the unfiltered one
(source line 113). -/
def goodEntry (f : String → JsVal → JsVal → Bool) (e : LogEntry) : Bool :=
  if e.inbound then
    decide (e.values = e.revived.filter (fun v => f e.table v .undefined)) &&
    decide (e.keys = none)
  else
    decide (e.values = e.revived.map JsVal.sndOf) &&
    decide (e.keys =
      some ((e.revived.filter (fun r => f e.table r.sndOf r.fstOf)).map JsVal.fstOf))

/-- The entries a queue-trimming phase `(before, after)` removed. -/
def removedEntries (p : List TableExport × List TableExport) : List TableExport :=
  p.1.take (p.1.length - p.2.length)

/-! ## Claim theorems: closed evaluations -/

/-- C2: the claim says no individual row is ever written to the target
storage engine twice, and rows already written in one inner pass are not
written again on a later pass of the same table.  Evaluating the code on
scenario A refutes it: row `num 1` of table `t` is handed to the storage
engine by both inner passes (the buffered rows array is never truncated —
source line 127 splices the freshly mapped copy, not `tableExport.rows`),
so it occurs twice among the written values. -/
theorem claim2_thm :
    runA.outcome = none ∧
    (allValues runA).count (JsVal.num 1) = 2 ∧
    runA.log.length = 2 := by decide

/-- C3: the claim says `completedTables` is incremented when the buffer's
complete flag is observed true and the buffer empties, so that a fully
delivered export ends with `completedTables = totalTables`.  Evaluating
the code on scenario A (every table delivered to completion) refutes it:
the final `done = true` snapshot has `completedTables = 0` while
`totalTables = 1`, because source line 124 reads `complete` off the
freshly mapped rows array, which never carries that marker. -/
theorem claim3_thm :
    (runA.snapshots.getLast?.map fun s => (s.done, s.totalTables, s.completedTables)) =
      some (true, 1, 0) ∧
    runA.outcome = none := by decide

/-- C9: the claim says `completedRows` never exceeds `totalRows` when the
latter is known.  Evaluating the code on scenario A refutes the bound:
the final observer snapshot reports `completedRows = 3` against
`totalRows = 2`, because the untruncated buffer makes the second pass
re-count row 1 (`progress.completedRows += rows.length`, line 123, over a
buffer line 127 failed to empty). -/
theorem claim9_thm :
    runA.snapshots.any
      (fun s => match s.totalRows with
        | some t => decide (t < s.completedRows)
        | none => false) = true := by decide

/-- C1 counterexample: on scenario B (non-inbound table, filter rejecting
the row with value `num 10`) the batch actually written violates the
claim's relation — the write succeeds yet the values handed to the
storage engine are the unfiltered `[num 10, num 20]` while only the row
`[num 2, num 20]` passes the predicate. -/
theorem claim1_counterexample :
    runB.outcome = none ∧
    runB.log.all (claimFilterBatch fB) = false ∧
    runB.log.map (fun e => (e.values, e.keys)) =
      [([JsVal.num 10, JsVal.num 20], some [JsVal.num 2])] := by decide

/-- C4 counterexample: on scenario C the observer requests abort on its
final invocation (`done = true`).  `importInto` does fail with the abort
error, but the transaction has already committed: the target database
still contains the imported row, so the claimed full rollback does not
happen. -/
theorem claim4_counterexample :
    runC.outcome = some .aborted ∧
    runC.abortedAtFinal = true ∧
    (runC.db.table "t").map DBTable.content = some [⟨[JsVal.num 1], none⟩] ∧
    runC.db ≠ db_C := by decide

/-- C5 counterexample: on scenario E (missing table `m`, override enabled,
table `t` delivered across two chunks) the operation completes
successfully and skips `m`, but `t` is not fully imported: its second row
`num 2`, delivered by the final pull, is never written, refuting the
claim's promise that every other table is fully imported. -/
theorem claim5_counterexample :
    runE.outcome = none ∧
    allValues runE = [JsVal.num 1] ∧
    (allValues runE).count (JsVal.num 2) = 0 ∧
    runE.log.all (fun e => e.table ≠ "m") = true := by decide

/-- C6 counterexample: during scenario A the final queue-trimming phase
removes the entry of table `t` from the queue while its rows buffer still
holds the two (never truncated) rows, refuting the claim that an entry is
removed only when it has zero buffered rows remaining. -/
theorem claim6_counterexample :
    (runA.popPhases.map removedEntries).any
      (fun l => l.any fun te => !(te.rows.getD []).isEmpty) = true ∧
    runA.popPhases.getLast? =
      some ([⟨"t", true, some [JsVal.num 1, JsVal.num 2], true⟩], []) := by decide

/-! ## Helper lemmas -/

theorem invokeCb_none {opts : ImportOptions} (h : opts.progressCallback = none)
    (st : ImpState) : invokeCb opts st = (st, false) := by
  simp [invokeCb, h]

theorem invokeCb_fst_db (opts : ImportOptions) (st : ImpState) :
    (invokeCb opts st).1.db = st.db := by
  cases h : opts.progressCallback <;> simp [invokeCb, h]

/-! ## C7: name-mismatch rejection -/

/-- C7: for every export whose stated `databaseName` differs from the
target database's name, `importInto` without the `acceptNameDiff`
override fails with the name-mismatch error and leaves the target
database completely unmodified — no write, no observer invocation, no
queue trimming has happened yet (the check runs before any row is
written). -/
theorem claim7_thm (db : DB) (s : JsonStream) (opts : ImportOptions)
    (revive : JsVal → JsVal) (s2 : JsonStream)
    (hname : opts.acceptNameDiff = false)
    (hload : loadUntilWeGotEnoughData s = .ok s2)
    (hdiff : (s2.result.data.getD emptyDbExport).databaseName ≠ some db.name) :
    importInto db s opts revive = ⟨some .nameMismatch, db, [], [], [], false⟩ := by
  unfold importInto
  rw [hload]
  exact if_pos ⟨hname, hdiff⟩

/-- Closed witness for C7: importing an export named `A` into a database
named `B` with default options fails with the name-mismatch error and
leaves `B` untouched. -/
def fileG : ExportFile :=
  ⟨some "dexie", some 1, some ⟨some "A", some 1, some [], some []⟩⟩

def db_G : DB := ⟨"B", 1, []⟩

theorem claim7_witness :
    importInto db_G ⟨fileG, []⟩ {} id =
      ⟨some .nameMismatch, db_G, [], [], [], false⟩ :=
  claim7_thm db_G ⟨fileG, []⟩ {} id ⟨fileG, []⟩ rfl rfl (by decide)

/-! ## C8: Stream Loader validation order and outcomes -/

/-- A header whose four fields are all present — nothing is missing —
but whose `databaseName` is the empty string. -/
def fileK : ExportFile :=
  ⟨some "dexie", some 1, some ⟨some "", some 1, some [⟨"t", "id", 0⟩], some []⟩⟩

/-- C8 counterexample: the claim says that once the format marker and
version pass, the loader fails only when one of `data`, `databaseName`,
`databaseVersion`, `tables` is missing, and otherwise returns the
still-live stream handle.  On `fileK` every one of the four fields is
present (none is missing), yet the loader fails: the source tests
JavaScript truthiness (`!dbExportFile.data!.databaseName`, line 165), so
a present-but-empty `databaseName` is rejected. -/
theorem claim8_counterexample :
    fileK.formatName = some "dexie" ∧
    versionTooBig fileK.formatVersion = false ∧
    fileK.data =
      some ⟨some "", some 1, some [⟨"t", "id", 0⟩], some []⟩ ∧
    (some "" : Option String).isSome = true ∧
    (some 1 : Option Nat).isSome = true ∧
    (some [(⟨"t", "id", 0⟩ : TableSchema)] : Option (List TableSchema)).isSome = true ∧
    loadUntilWeGotEnoughData ⟨fileK, []⟩ = .error (.malformed "databaseName") :=
  ⟨rfl, rfl, rfl, rfl, rfl, rfl, rfl⟩

/-- Amended C8: after its pull loop, `loadUntilWeGotEnoughData` validates
the parsed header in exactly this order: a format marker other than the
expected `"dexie"` fails with the format error; otherwise a format
version above the supported ceiling fails with the unsupported-version
error; otherwise the JavaScript-truthiness checks run in the order
`data`, `databaseName`, `databaseVersion`, `tables` — a missing `data`
object, a missing or empty `databaseName`, a missing or zero
`databaseVersion`, and a missing `tables` array each fail with the
malformed-export error naming that field; otherwise the still-live
stream handle (the pulled stream, pending chunks and all) is returned. -/
theorem claim8_amended (s : JsonStream) :
    (((pullPhase s).result.formatName ≠ some "dexie" →
        loadUntilWeGotEnoughData s = .error .formatError) ∧
      ((pullPhase s).result.formatName = some "dexie" →
        versionTooBig (pullPhase s).result.formatVersion = true →
        loadUntilWeGotEnoughData s = .error .unsupportedVersion) ∧
      ((pullPhase s).result.formatName = some "dexie" →
        versionTooBig (pullPhase s).result.formatVersion = false →
        (pullPhase s).result.data = none →
        loadUntilWeGotEnoughData s = .error (.malformed "data"))) ∧
    (∀ d : DatabaseExport,
      (pullPhase s).result.formatName = some "dexie" →
      versionTooBig (pullPhase s).result.formatVersion = false →
      (pullPhase s).result.data = some d →
      ((strFalsy d.databaseName = true →
          loadUntilWeGotEnoughData s = .error (.malformed "databaseName")) ∧
        (strFalsy d.databaseName = false → natFalsy d.databaseVersion = true →
          loadUntilWeGotEnoughData s = .error (.malformed "databaseVersion")) ∧
        (strFalsy d.databaseName = false → natFalsy d.databaseVersion = false →
          d.tables = none →
          loadUntilWeGotEnoughData s = .error (.malformed "tables")) ∧
        (strFalsy d.databaseName = false → natFalsy d.databaseVersion = false →
          d.tables.isSome = true →
          loadUntilWeGotEnoughData s = .ok (pullPhase s)))) := by
  refine ⟨⟨?_, ?_, ?_⟩, ?_⟩
  · intro h1
    simp [loadUntilWeGotEnoughData, validateHeader, h1]
  · intro h1 h2
    simp [loadUntilWeGotEnoughData, validateHeader, h1, h2]
  · intro h1 h2 h3
    simp [loadUntilWeGotEnoughData, validateHeader, h1, h2, h3]
  · intro d h1 h2 h3
    refine ⟨?_, ?_, ?_, ?_⟩
    · intro h4
      simp [loadUntilWeGotEnoughData, validateHeader, h1, h2, h3, h4]
    · intro h4 h5
      simp [loadUntilWeGotEnoughData, validateHeader, h1, h2, h3, h4, h5]
    · intro h4 h5 h6
      simp [loadUntilWeGotEnoughData, validateHeader, h1, h2, h3, h4, h5, h6]
    · intro h4 h5 h6
      rcases Option.isSome_iff_exists.mp h6 with ⟨c, hc⟩
      simp [loadUntilWeGotEnoughData, validateHeader, h1, h2, h3, h4, h5, hc]

/-- Closed witness for C8 (amended): a complete valid header — nonempty
name, nonzero version — makes the loader return the live stream handle,
applied at a concrete stream with one pending chunk left over. -/
def fileH : ExportFile :=
  ⟨some "dexie", some 1, some ⟨some "db1", some 1, some [⟨"t", "id", 0⟩], some []⟩⟩

theorem claim8_witness :
    loadUntilWeGotEnoughData ⟨fileH, [[]]⟩ = .ok (pullPhase ⟨fileH, [[]]⟩) :=
  ((claim8_amended ⟨fileH, [[]]⟩).2
    ⟨some "db1", some 1, some [⟨"t", "id", 0⟩], some []⟩
    rfl rfl rfl).2.2.2 rfl rfl rfl

/-! ## C10: missing manifest entry crashes before the missing-table handling -/

theorem innerPass_head_typeErr (opts : ImportOptions) (revive : JsVal → JsVal)
    (te : TableExport) (rest : List TableExport) (rs : List JsVal)
    (ms : List TableSchema) (st : ImpState)
    (hcb : opts.progressCallback = none)
    (hrows : te.rows = some rs)
    (hskip : ¬(te.complete = true ∧ rs = []))
    (hms : st.d.tables = some ms)
    (hfind : ms.find? (fun t => t.name = te.tableName) = none) :
    innerPass opts revive (te :: rest) st = (st, some .typeError) := by
  unfold innerPass processEntry processEntryAfterCb
  simp only [hrows, if_neg hskip, invokeCb_none hcb, hms, Option.getD_some, hfind]

theorem importAll_of_body_err (opts : ImportOptions) (revive : JsVal → JsVal)
    (st st1 : ImpState) (e : ImportError)
    (h : outerBody opts revive st = (st1, some e)) :
    importAll opts revive st = (st1, some e) := by
  unfold importAll outerLoopAux
  rw [h]

/-- C10: for every export containing a `data` entry whose `tableName` has
no matching entry in the schema manifest, the inner loop's unguarded
lookup `dbExport.tables.filter(t => t.name === tableName)[0].schema`
fails (a TypeError on `undefined`) before the missing-table handling is
consulted, so the import fails with that error regardless of any
override option — here every `accept*` override is enabled and the
`acceptMissingTables`, transaction, filter and remaining options are
arbitrary. -/
theorem claim10_thm (db : DB) (s : JsonStream) (opts : ImportOptions)
    (revive : JsVal → JsVal) (s2 : JsonStream) (d : DatabaseExport)
    (ms : List TableSchema) (te : TableExport) (rest : List TableExport)
    (rs : List JsVal)
    (hcb : opts.progressCallback = none)
    (hnd : opts.acceptNameDiff = true)
    (hvd : opts.acceptVersionDiff = true)
    (hload : loadUntilWeGotEnoughData s = .ok s2)
    (hdata : s2.result.data = some d)
    (hms : d.tables = some ms)
    (harr : d.dataArr = some (te :: rest))
    (hrows : te.rows = some rs)
    (hskip : ¬(te.complete = true ∧ rs = []))
    (hnotin : ms.find? (fun t => t.name = te.tableName) = none) :
    (importInto db s opts revive).outcome = some .typeError := by
  have hbody : ∀ st : ImpState, st.d = d →
      outerBody opts revive st = (st, some .typeError) := by
    intro st hd
    unfold outerBody
    simp only [hd, harr,
      innerPass_head_typeErr opts revive te rest rs ms st hcb hrows hskip
        (by rw [hd]; exact hms) hnotin]
  have hbody2 : ∀ (dbx : DB) (lg : List LogEntry) (pr : ImportProgress) (cnt : Nat)
      (sn : List ImportProgress) (pp : List (List TableExport × List TableExport))
      (pd : List Chunk),
      outerBody opts revive ⟨dbx, lg, pr, cnt, sn, pp, d, pd⟩ =
        (⟨dbx, lg, pr, cnt, sn, pp, d, pd⟩, some .typeError) :=
    fun dbx lg pr cnt sn pp pd => hbody ⟨dbx, lg, pr, cnt, sn, pp, d, pd⟩ rfl
  unfold importInto
  rw [hload]
  unfold importIntoLoaded stage2 runBody initState
  simp only [hdata, Option.getD_some, hnd, invokeCb_none hcb, hvd,
    Bool.true_eq_false, false_and, if_false, ite_false]
  cases hnt : opts.noTransaction with
  | true =>
    simp only [hnt, if_true, ite_true]
    rw [importAll_of_body_err opts revive _ _ _ (hbody2 _ _ _ _ _ _ _)]
    rfl
  | false =>
    simp only [hnt, Bool.false_eq_true, if_false, ite_false]
    rw [importAll_of_body_err opts revive _ _ _ (hbody2 _ _ _ _ _ _ _)]
    rfl

/-- Closed witness for C10: an export whose `data` names table `x` while
the manifest only declares `t` fails with the TypeError even though every
override (including `acceptMissingTables`) is enabled. -/
def fileJ : ExportFile :=
  ⟨some "dexie", some 1,
   some ⟨some "db1", some 1, some [⟨"t", "id", 1⟩],
         some [⟨"x", true, some [.num 1], false⟩]⟩⟩

def opts_J : ImportOptions :=
  { acceptMissingTables := true, acceptVersionDiff := true, acceptNameDiff := true,
    acceptChangedPrimaryKey := true }

theorem claim10_witness :
    (importInto db_C ⟨fileJ, []⟩ opts_J id).outcome = some .typeError :=
  claim10_thm db_C ⟨fileJ, []⟩ opts_J id ⟨fileJ, []⟩
    ⟨some "db1", some 1, some [⟨"t", "id", 1⟩],
     some [⟨"x", true, some [.num 1], false⟩]⟩
    [⟨"t", "id", 1⟩] ⟨"x", true, some [.num 1], false⟩ [] [.num 1]
    rfl rfl rfl rfl rfl rfl rfl rfl (by decide) (by decide)

/-! ## C4: abort protocol under transactional mode -/

theorem runBody_err_db (opts : ImportOptions) (revive : JsVal → JsVal)
    (st1 st2 : ImpState) (err : ImportError)
    (hNT : opts.noTransaction = false)
    (h : runBody opts revive st1 = (st2, some err)) : st2.db = st1.db := by
  unfold runBody at h
  rw [hNT] at h
  simp only [Bool.false_eq_true, if_false, ite_false] at h
  cases hia : importAll opts revive st1 with
  | mk stX o =>
    rw [hia] at h
    cases o with
    | some e2 =>
      simp only [Prod.mk.injEq] at h
      rw [← h.1]
    | none => simp at h

theorem finalPhase_spec (opts : ImportOptions) (st2 : ImpState) :
    ((finalPhase opts st2).abortedAtFinal = true →
      (finalPhase opts st2).outcome = some .aborted) ∧
    (∀ e : ImportError, (finalPhase opts st2).outcome = some e →
      (finalPhase opts st2).abortedAtFinal = false → False) := by
  unfold finalPhase
  cases hf : invokeCb opts { st2 with progress := { st2.progress with done := true } } with
  | mk st4 b2 =>
    cases b2 with
    | true => exact ⟨fun h => rfl, fun e2 hx hy => Bool.noConfusion hy⟩
    | false => exact ⟨fun h => Bool.noConfusion h, fun e2 hx hy => Option.noConfusion hx⟩

theorem claim4_stage2 (opts : ImportOptions) (revive : JsVal → JsVal)
    (st1 : ImpState) (hNT : opts.noTransaction = false) :
    ((stage2 opts revive st1).abortedAtFinal = true →
      (stage2 opts revive st1).outcome = some .aborted) ∧
    (∀ e : ImportError, (stage2 opts revive st1).outcome = some e →
      (stage2 opts revive st1).abortedAtFinal = false →
      (stage2 opts revive st1).db = st1.db) := by
  unfold stage2
  cases hrb : runBody opts revive st1 with
  | mk st2 oerr =>
    cases oerr with
    | some err =>
      refine ⟨fun h => Bool.noConfusion h, fun e2 hx hy => ?_⟩
      show st2.db = st1.db
      exact runBody_err_db opts revive st1 st2 err hNT hrb
    | none =>
      have hfp := finalPhase_spec opts st2
      exact ⟨hfp.1, fun e2 hx hy => (hfp.2 e2 hx hy).elim⟩

theorem claim4_loaded (db : DB) (s2 : JsonStream) (opts : ImportOptions)
    (revive : JsVal → JsVal) (hNT : opts.noTransaction = false) :
    ((importIntoLoaded db s2 opts revive).abortedAtFinal = true →
      (importIntoLoaded db s2 opts revive).outcome = some .aborted) ∧
    (∀ e : ImportError, (importIntoLoaded db s2 opts revive).outcome = some e →
      (importIntoLoaded db s2 opts revive).abortedAtFinal = false →
      (importIntoLoaded db s2 opts revive).db = db) := by
  unfold importIntoLoaded
  by_cases h1 : opts.acceptNameDiff = false ∧
      (s2.result.data.getD emptyDbExport).databaseName ≠ some db.name
  · rw [if_pos h1]
    exact ⟨fun h => Bool.noConfusion h, fun e2 hx hy => rfl⟩
  · rw [if_neg h1]
    by_cases h2 : opts.acceptVersionDiff = false ∧
        (s2.result.data.getD emptyDbExport).databaseVersion ≠ some db.verno
    · rw [if_pos h2]
      exact ⟨fun h => Bool.noConfusion h, fun e2 hx hy => rfl⟩
    · rw [if_neg h2]
      have hdb1 : (invokeCb opts (initState db s2)).1.db = db :=
        invokeCb_fst_db opts (initState db s2)
      cases hcb : invokeCb opts (initState db s2) with
      | mk st1 b =>
        rw [hcb] at hdb1
        cases b with
        | true =>
          exact ⟨fun h => Bool.noConfusion h, fun e2 hx hy => hdb1⟩
        | false =>
          have h := claim4_stage2 opts revive st1 hNT
          exact ⟨h.1, fun e2 hx hy => (h.2 e2 hx hy).trans hdb1⟩

/-- Amended C4: in transactional (default) mode, an abort requested at the
initial or at any per-batch observer invocation — indeed any failure that
is not raised by the final `done = true` invocation — leaves the target
database exactly as it was (full rollback / nothing written yet), while
an abort raised by the final invocation makes the run fail with the
abort error even though the transaction has already committed. -/
theorem claim4_amended (db : DB) (s : JsonStream) (opts : ImportOptions)
    (revive : JsVal → JsVal) (hNT : opts.noTransaction = false) :
    ((importInto db s opts revive).abortedAtFinal = true →
      (importInto db s opts revive).outcome = some .aborted) ∧
    (∀ e : ImportError, (importInto db s opts revive).outcome = some e →
      (importInto db s opts revive).abortedAtFinal = false →
      (importInto db s opts revive).db = db) := by
  unfold importInto
  cases hload : loadUntilWeGotEnoughData s with
  | error e => exact ⟨fun h => Bool.noConfusion h, fun e2 h1 h2 => rfl⟩
  | ok s2 => exact claim4_loaded db s2 opts revive hNT

/-- Closed witness for C4 (amended): on scenario D2 the observer aborts at
the per-batch invocation of the second pass, after a batch has been
written inside the transaction; the amended theorem yields that the
target database is fully rolled back to its initial state. -/
theorem claim4_witness : runD2.db = db_A :=
  (claim4_amended db_A streamA opts_D2 id rfl).2 .aborted (by decide) (by decide)

/-! ## C1: what the filter actually does to each written batch -/

theorem invokeCb_fst_log (o : ImportOptions) (st : ImpState) :
    (invokeCb o st).1.log = st.log := by
  cases h : o.progressCallback <;> simp [invokeCb, h]

theorem writeStep_log (opts : ImportOptions) (revive : JsVal → JsVal)
    (te : TableExport) (rows : List JsVal) (st1 : ImpState) :
    (writeStep opts revive te rows st1).log =
      st1.log ++ [⟨te.tableName, te.inbound,
        (computeBatch opts revive te.tableName te.inbound rows).1,
        (computeBatch opts revive te.tableName te.inbound rows).2.values,
        (computeBatch opts revive te.tableName te.inbound rows).2.keys⟩] := by
  unfold writeStep
  cases hc : computeBatch opts revive te.tableName te.inbound rows with
  | mk rows2 batch => cases hcl : opts.clearTablesBeforeImport <;> simp [hcl]

theorem goodEntry_computeBatch (opts : ImportOptions) (revive : JsVal → JsVal)
    (tableName : String) (inbound : Bool) (rows : List JsVal)
    (f : String → JsVal → JsVal → Bool) (hf : opts.filter = some f) :
    goodEntry f ⟨tableName, inbound,
      (computeBatch opts revive tableName inbound rows).1,
      (computeBatch opts revive tableName inbound rows).2.values,
      (computeBatch opts revive tableName inbound rows).2.keys⟩ = true := by
  unfold computeBatch goodEntry
  rw [hf]
  cases inbound <;> simp

theorem processEntryAfterCb_log_mem (opts : ImportOptions) (revive : JsVal → JsVal)
    (te : TableExport) (rows : List JsVal) (st1 : ImpState)
    (f : String → JsVal → JsVal → Bool) (hf : opts.filter = some f) :
    ∀ e ∈ (processEntryAfterCb opts revive te rows st1).1.log,
      e ∈ st1.log ∨ goodEntry f e = true := by
  unfold processEntryAfterCb
  cases hfind : (st1.d.tables.getD []).find? (fun t => t.name = te.tableName) with
  | none => exact fun e he => Or.inl he
  | some ts =>
    simp only []
    cases htab : st1.db.table te.tableName with
    | none =>
      simp only []
      by_cases hmt : opts.acceptMissingTables = false
      · rw [if_pos hmt]; exact fun e he => Or.inl he
      · rw [if_neg hmt]; exact fun e he => Or.inl he
    | some table =>
      simp only []
      by_cases hpk : opts.acceptChangedPrimaryKey = false ∧
          firstField ts.schema ≠ table.primKeySrc
      · rw [if_pos hpk]; exact fun e he => Or.inl he
      · rw [if_neg hpk]
        intro e he
        have he2 : e ∈ st1.log ++ [⟨te.tableName, te.inbound,
            (computeBatch opts revive te.tableName te.inbound rows).1,
            (computeBatch opts revive te.tableName te.inbound rows).2.values,
            (computeBatch opts revive te.tableName te.inbound rows).2.keys⟩] := by
          rw [← writeStep_log opts revive te rows st1]
          exact he
        rcases List.mem_append.mp he2 with h | h
        · exact Or.inl h
        · rw [List.mem_singleton] at h
          subst h
          exact Or.inr (goodEntry_computeBatch opts revive te.tableName te.inbound
            rows f hf)

theorem processEntry_log_mem (opts : ImportOptions) (revive : JsVal → JsVal)
    (te : TableExport) (rows : List JsVal) (st : ImpState)
    (f : String → JsVal → JsVal → Bool) (hf : opts.filter = some f) :
    ∀ e ∈ (processEntry opts revive te rows st).1.log,
      e ∈ st.log ∨ goodEntry f e = true := by
  unfold processEntry
  cases hcb : invokeCb opts st with
  | mk st1 b =>
    have hl : st1.log = st.log := by
      have h2 := invokeCb_fst_log opts st
      rw [hcb] at h2
      exact h2
    cases b with
    | true => exact fun e he => Or.inl (hl ▸ he)
    | false =>
      simp only []
      intro e he
      rcases processEntryAfterCb_log_mem opts revive te rows st1 f hf e he with h | h
      · exact Or.inl (hl ▸ h)
      · exact Or.inr h

theorem innerPass_log_mem (opts : ImportOptions) (revive : JsVal → JsVal)
    (f : String → JsVal → JsVal → Bool) (hf : opts.filter = some f) :
    ∀ (es : List TableExport) (st : ImpState) (e : LogEntry),
      e ∈ (innerPass opts revive es st).1.log → e ∈ st.log ∨ goodEntry f e = true := by
  intro es
  induction es with
  | nil => exact fun st e he => Or.inl he
  | cons te rest ih =>
    intro st e
    unfold innerPass
    cases hr : te.rows with
    | none => exact fun he => Or.inl he
    | some rows =>
      simp only []
      by_cases hskip : te.complete = true ∧ rows = []
      · rw [if_pos hskip]
        exact fun he => ih st e he
      · rw [if_neg hskip]
        cases hpe : processEntry opts revive te rows st with
        | mk st1 oerr =>
          cases oerr with
          | some err =>
            simp only []
            intro he
            exact processEntry_log_mem opts revive te rows st f hf e
              (by rw [hpe]; exact he)
          | none =>
            simp only []
            intro he
            rcases ih st1 e he with h | h
            · exact processEntry_log_mem opts revive te rows st f hf e
                (by rw [hpe]; exact h)
            · exact Or.inr h

theorem pullChunk_log (st : ImpState) : (pullChunk st).log = st.log := by
  cases h : st.pending <;> simp [pullChunk, h]

theorem afterPop_log (st1 : ImpState) (arr2 : List TableExport) :
    (afterPop st1 arr2).log = st1.log := by
  unfold afterPop
  simp only []
  split
  · rfl
  · rw [pullChunk_log]

theorem outerBody_log_mem (opts : ImportOptions) (revive : JsVal → JsVal)
    (st : ImpState) (f : String → JsVal → JsVal → Bool) (hf : opts.filter = some f) :
    ∀ e ∈ (outerBody opts revive st).1.log, e ∈ st.log ∨ goodEntry f e = true := by
  unfold outerBody
  cases hda : st.d.dataArr with
  | none => exact fun e he => Or.inl he
  | some arr =>
    simp only []
    cases hip : innerPass opts revive arr st with
    | mk st1 oerr =>
      cases oerr with
      | some err =>
        simp only []
        intro e he
        exact innerPass_log_mem opts revive f hf arr st e (by rw [hip]; exact he)
      | none =>
        simp only []
        cases hpl : popLoop (st1.d.dataArr.getD []) with
        | none =>
          simp only []
          intro e he
          exact innerPass_log_mem opts revive f hf arr st e (by rw [hip]; exact he)
        | some arr2 =>
          simp only []
          intro e he
          have he2 : e ∈ st1.log := by
            rw [← afterPop_log st1 arr2]
            exact he
          exact innerPass_log_mem opts revive f hf arr st e (by rw [hip]; exact he2)

theorem outerLoopAux_log_mem (opts : ImportOptions) (revive : JsVal → JsVal)
    (f : String → JsVal → JsVal → Bool) (hf : opts.filter = some f) :
    ∀ (n : Nat) (st : ImpState) (e : LogEntry),
      e ∈ (outerLoopAux opts revive n st).1.log →
      e ∈ st.log ∨ goodEntry f e = true := by
  intro n
  induction n with
  | zero => exact fun st e he => Or.inl he
  | succ n ih =>
    intro st e
    unfold outerLoopAux
    cases hob : outerBody opts revive st with
    | mk st1 oerr =>
      cases oerr with
      | some err =>
        simp only []
        intro he
        exact outerBody_log_mem opts revive st f hf e (by rw [hob]; exact he)
      | none =>
        simp only []
        by_cases hp : st1.pending = []
        · rw [if_pos hp]
          intro he
          exact outerBody_log_mem opts revive st f hf e (by rw [hob]; exact he)
        · rw [if_neg hp]
          intro he
          rcases ih st1 e he with h | h
          · exact outerBody_log_mem opts revive st f hf e (by rw [hob]; exact h)
          · exact Or.inr h

theorem importAll_log_mem (opts : ImportOptions) (revive : JsVal → JsVal)
    (st : ImpState) (f : String → JsVal → JsVal → Bool) (hf : opts.filter = some f) :
    ∀ e ∈ (importAll opts revive st).1.log, e ∈ st.log ∨ goodEntry f e = true :=
  outerLoopAux_log_mem opts revive f hf (st.pending.length + 1) st

theorem runBody_log_mem (opts : ImportOptions) (revive : JsVal → JsVal)
    (st1 : ImpState) (f : String → JsVal → JsVal → Bool) (hf : opts.filter = some f) :
    ∀ e ∈ (runBody opts revive st1).1.log, e ∈ st1.log ∨ goodEntry f e = true := by
  unfold runBody
  cases hnt : opts.noTransaction with
  | true =>
    simp only [if_true, ite_true]
    exact importAll_log_mem opts revive st1 f hf
  | false =>
    simp only [Bool.false_eq_true, if_false, ite_false]
    cases hia : importAll opts revive st1 with
    | mk stE oerr =>
      cases oerr with
      | some err =>
        simp only []
        intro e he
        exact importAll_log_mem opts revive st1 f hf e (by rw [hia]; exact he)
      | none =>
        simp only []
        intro e he
        exact importAll_log_mem opts revive st1 f hf e (by rw [hia]; exact he)

theorem finalPhase_log (opts : ImportOptions) (st2 : ImpState) :
    (finalPhase opts st2).log = st2.log := by
  unfold finalPhase
  cases hf : invokeCb opts { st2 with progress := { st2.progress with done := true } } with
  | mk st4 b =>
    have h4 : st4.log = st2.log := by
      have h2 := invokeCb_fst_log opts
        { st2 with progress := { st2.progress with done := true } }
      rw [hf] at h2
      exact h2
    cases b <;> exact h4

theorem stage2_log_mem (opts : ImportOptions) (revive : JsVal → JsVal)
    (st1 : ImpState) (f : String → JsVal → JsVal → Bool) (hf : opts.filter = some f) :
    ∀ e ∈ (stage2 opts revive st1).log, e ∈ st1.log ∨ goodEntry f e = true := by
  unfold stage2
  cases hrb : runBody opts revive st1 with
  | mk st2 oerr =>
    cases oerr with
    | some err =>
      simp only []
      intro e he
      exact runBody_log_mem opts revive st1 f hf e (by rw [hrb]; exact he)
    | none =>
      simp only []
      intro e he
      have he2 : e ∈ st2.log := by
        rw [← finalPhase_log opts st2]
        exact he
      exact runBody_log_mem opts revive st1 f hf e (by rw [hrb]; exact he2)

/-- Amended C1: whenever a filter predicate is configured, every batch
actually written satisfies: for an inbound table, the values written are
exactly the revived buffered rows the predicate accepts — in buffer
order, failing rows excluded — with no separate keys list; for a
non-inbound table, the separate keys list is exactly the first slot of
each revived row the predicate accepts (in buffer order), but the values
written are the second slots of all revived buffered rows, unfiltered
(source line 113 builds `values` from `rows`, not `filteredRows`). -/
theorem claim1_amended (db : DB) (s : JsonStream) (opts : ImportOptions)
    (revive : JsVal → JsVal) (f : String → JsVal → JsVal → Bool)
    (hf : opts.filter = some f) :
    ∀ e ∈ (importInto db s opts revive).log, goodEntry f e = true := by
  unfold importInto
  cases hload : loadUntilWeGotEnoughData s with
  | error e2 => exact fun e he => absurd he (List.not_mem_nil e)
  | ok s2 =>
    simp only []
    unfold importIntoLoaded
    by_cases h1 : opts.acceptNameDiff = false ∧
        (s2.result.data.getD emptyDbExport).databaseName ≠ some db.name
    · rw [if_pos h1]
      exact fun e he => absurd he (List.not_mem_nil e)
    · rw [if_neg h1]
      by_cases h2 : opts.acceptVersionDiff = false ∧
          (s2.result.data.getD emptyDbExport).databaseVersion ≠ some db.verno
      · rw [if_pos h2]
        exact fun e he => absurd he (List.not_mem_nil e)
      · rw [if_neg h2]
        have hl1 : (invokeCb opts (initState db s2)).1.log = [] :=
          invokeCb_fst_log opts (initState db s2)
        cases hcb : invokeCb opts (initState db s2) with
        | mk st1 b =>
          rw [hcb] at hl1
          cases b with
          | true => exact fun e he => absurd (hl1 ▸ he) (List.not_mem_nil e)
          | false =>
            intro e he
            rcases stage2_log_mem opts revive st1 f hf e he with h | h
            · exact absurd (hl1 ▸ h) (List.not_mem_nil e)
            · exact h

/-- Closed witness for C1 (amended): the single batch written in
scenario B satisfies the amended per-batch relation — filtered keys,
unfiltered values. -/
theorem claim1_witness :
    goodEntry fB ⟨"u", false,
      [.arr2 (.num 1) (.num 10), .arr2 (.num 2) (.num 20)],
      [.num 10, .num 20], some [.num 2]⟩ = true :=
  claim1_amended db_B streamB opts_B id fB rfl
    ⟨"u", false, [.arr2 (.num 1) (.num 10), .arr2 (.num 2) (.num 20)],
      [.num 10, .num 20], some [.num 2]⟩ (by decide)

/-! ## C6: what queue trimming actually guarantees -/

/-- The trimmed queue is a suffix of the queue before trimming, and every
removed (leading) entry was marked complete. -/
def trimmedFrom (p : List TableExport × List TableExport) : Prop :=
  ∃ k, p.2 = p.1.drop k ∧ ∀ te ∈ p.1.take k, te.complete = true

theorem popLoop_spec : ∀ (l l2 : List TableExport), popLoop l = some l2 →
    ∃ k, l2 = l.drop k ∧ ∀ te ∈ l.take k, te.complete = true := by
  intro l
  induction l with
  | nil =>
    intro l2 h
    refine ⟨0, ?_, ?_⟩
    · simpa [popLoop] using h.symm
    · intro te hte; simp at hte
  | cons te rest ih =>
    intro l2
    unfold popLoop
    cases hr : te.rows with
    | none => intro h; exact Option.noConfusion h
    | some rows2 =>
      simp only []
      by_cases hc : te.complete = true
      · rw [if_pos hc]
        intro h
        rcases ih l2 h with ⟨k, h1, h2⟩
        refine ⟨k + 1, ?_, ?_⟩
        · simpa using h1
        · intro te2 hte2
          rcases List.mem_cons.mp (by simpa using hte2) with h3 | h3
          · subst h3; exact hc
          · exact h2 te2 h3
      · rw [if_neg hc]
        intro h
        obtain rfl : te :: rest = l2 := by simpa using h
        refine ⟨0, rfl, ?_⟩
        intro te2 hte2; simp at hte2

theorem invokeCb_fst_popPhases (o : ImportOptions) (st : ImpState) :
    (invokeCb o st).1.popPhases = st.popPhases := by
  cases h : o.progressCallback <;> simp [invokeCb, h]

theorem writeStep_popPhases (opts : ImportOptions) (revive : JsVal → JsVal)
    (te : TableExport) (rows : List JsVal) (st1 : ImpState) :
    (writeStep opts revive te rows st1).popPhases = st1.popPhases := by
  unfold writeStep
  cases hc : computeBatch opts revive te.tableName te.inbound rows with
  | mk rows2 batch => cases hcl : opts.clearTablesBeforeImport <;> simp [hcl]

theorem processEntryAfterCb_popPhases (opts : ImportOptions) (revive : JsVal → JsVal)
    (te : TableExport) (rows : List JsVal) (st1 : ImpState) :
    (processEntryAfterCb opts revive te rows st1).1.popPhases = st1.popPhases := by
  unfold processEntryAfterCb
  cases hfind : (st1.d.tables.getD []).find? (fun t => t.name = te.tableName) with
  | none => rfl
  | some ts =>
    simp only []
    cases htab : st1.db.table te.tableName with
    | none =>
      simp only []
      by_cases hmt : opts.acceptMissingTables = false
      · rw [if_pos hmt]
      · rw [if_neg hmt]
    | some table =>
      simp only []
      by_cases hpk : opts.acceptChangedPrimaryKey = false ∧
          firstField ts.schema ≠ table.primKeySrc
      · rw [if_pos hpk]
      · rw [if_neg hpk]
        exact writeStep_popPhases opts revive te rows st1

theorem processEntry_popPhases (opts : ImportOptions) (revive : JsVal → JsVal)
    (te : TableExport) (rows : List JsVal) (st : ImpState) :
    (processEntry opts revive te rows st).1.popPhases = st.popPhases := by
  unfold processEntry
  cases hcb : invokeCb opts st with
  | mk st1 b =>
    have h1 : st1.popPhases = st.popPhases := by
      have h2 := invokeCb_fst_popPhases opts st
      rw [hcb] at h2
      exact h2
    cases b with
    | true => exact h1
    | false =>
      simp only []
      exact (processEntryAfterCb_popPhases opts revive te rows st1).trans h1

theorem innerPass_popPhases (opts : ImportOptions) (revive : JsVal → JsVal) :
    ∀ (es : List TableExport) (st : ImpState),
      (innerPass opts revive es st).1.popPhases = st.popPhases := by
  intro es
  induction es with
  | nil => exact fun st => rfl
  | cons te rest ih =>
    intro st
    unfold innerPass
    cases hr : te.rows with
    | none => rfl
    | some rows =>
      simp only []
      by_cases hskip : te.complete = true ∧ rows = []
      · rw [if_pos hskip]
        exact ih st
      · rw [if_neg hskip]
        cases hpe : processEntry opts revive te rows st with
        | mk st1 oerr =>
          have h1 : st1.popPhases = st.popPhases := by
            have h2 := processEntry_popPhases opts revive te rows st
            rw [hpe] at h2
            exact h2
          cases oerr with
          | some err => exact h1
          | none =>
            simp only []
            exact (ih st1).trans h1

theorem pullChunk_popPhases (st : ImpState) :
    (pullChunk st).popPhases = st.popPhases := by
  cases h : st.pending <;> simp [pullChunk, h]

theorem afterPop_popPhases (st1 : ImpState) (arr2 : List TableExport) :
    (afterPop st1 arr2).popPhases =
      st1.popPhases ++ [(st1.d.dataArr.getD [], arr2)] := by
  unfold afterPop
  simp only []
  split
  · rfl
  · rw [pullChunk_popPhases]

theorem outerBody_phase_mem (opts : ImportOptions) (revive : JsVal → JsVal)
    (st : ImpState) :
    ∀ p ∈ (outerBody opts revive st).1.popPhases,
      p ∈ st.popPhases ∨ trimmedFrom p := by
  unfold outerBody
  cases hda : st.d.dataArr with
  | none => exact fun p hp => Or.inl hp
  | some arr =>
    simp only []
    cases hip : innerPass opts revive arr st with
    | mk st1 oerr =>
      have hpp1 : st1.popPhases = st.popPhases := by
        have h2 := innerPass_popPhases opts revive arr st
        rw [hip] at h2
        exact h2
      cases oerr with
      | some err => exact fun p hp => Or.inl (hpp1 ▸ hp)
      | none =>
        simp only []
        cases hpl : popLoop (st1.d.dataArr.getD []) with
        | none => exact fun p hp => Or.inl (hpp1 ▸ hp)
        | some arr2 =>
          simp only []
          intro p hp
          have hp2 : p ∈ st1.popPhases ++ [(st1.d.dataArr.getD [], arr2)] := by
            rw [← afterPop_popPhases st1 arr2]
            exact hp
          rcases List.mem_append.mp hp2 with h | h
          · exact Or.inl (hpp1 ▸ h)
          · rw [List.mem_singleton] at h
            subst h
            exact Or.inr (popLoop_spec _ _ hpl)

theorem outerLoopAux_phase_mem (opts : ImportOptions) (revive : JsVal → JsVal) :
    ∀ (n : Nat) (st : ImpState) (p : List TableExport × List TableExport),
      p ∈ (outerLoopAux opts revive n st).1.popPhases →
      p ∈ st.popPhases ∨ trimmedFrom p := by
  intro n
  induction n with
  | zero => exact fun st p hp => Or.inl hp
  | succ n ih =>
    intro st p
    unfold outerLoopAux
    cases hob : outerBody opts revive st with
    | mk st1 oerr =>
      cases oerr with
      | some err =>
        simp only []
        intro hp
        exact outerBody_phase_mem opts revive st p (by rw [hob]; exact hp)
      | none =>
        simp only []
        by_cases hp1 : st1.pending = []
        · rw [if_pos hp1]
          intro hp
          exact outerBody_phase_mem opts revive st p (by rw [hob]; exact hp)
        · rw [if_neg hp1]
          intro hp
          rcases ih st1 p hp with h | h
          · exact outerBody_phase_mem opts revive st p (by rw [hob]; exact h)
          · exact Or.inr h

theorem runBody_phase_mem (opts : ImportOptions) (revive : JsVal → JsVal)
    (st1 : ImpState) :
    ∀ p ∈ (runBody opts revive st1).1.popPhases,
      p ∈ st1.popPhases ∨ trimmedFrom p := by
  unfold runBody
  cases hnt : opts.noTransaction with
  | true =>
    simp only [if_true, ite_true]
    exact outerLoopAux_phase_mem opts revive (st1.pending.length + 1) st1
  | false =>
    simp only [Bool.false_eq_true, if_false, ite_false]
    cases hia : importAll opts revive st1 with
    | mk stE oerr =>
      cases oerr with
      | some err =>
        simp only []
        intro p hp
        exact outerLoopAux_phase_mem opts revive (st1.pending.length + 1) st1 p
          (by rw [show outerLoopAux opts revive (st1.pending.length + 1) st1 =
            importAll opts revive st1 from rfl, hia]; exact hp)
      | none =>
        simp only []
        intro p hp
        exact outerLoopAux_phase_mem opts revive (st1.pending.length + 1) st1 p
          (by rw [show outerLoopAux opts revive (st1.pending.length + 1) st1 =
            importAll opts revive st1 from rfl, hia]; exact hp)

theorem finalPhase_popPhases (opts : ImportOptions) (st2 : ImpState) :
    (finalPhase opts st2).popPhases = st2.popPhases := by
  unfold finalPhase
  cases hf : invokeCb opts { st2 with progress := { st2.progress with done := true } } with
  | mk st4 b =>
    have h4 : st4.popPhases = st2.popPhases := by
      have h2 := invokeCb_fst_popPhases opts
        { st2 with progress := { st2.progress with done := true } }
      rw [hf] at h2
      exact h2
    cases b <;> exact h4

theorem stage2_phase_mem (opts : ImportOptions) (revive : JsVal → JsVal)
    (st1 : ImpState) :
    ∀ p ∈ (stage2 opts revive st1).popPhases,
      p ∈ st1.popPhases ∨ trimmedFrom p := by
  unfold stage2
  cases hrb : runBody opts revive st1 with
  | mk st2 oerr =>
    cases oerr with
    | some err =>
      simp only []
      intro p hp
      exact runBody_phase_mem opts revive st1 p (by rw [hrb]; exact hp)
    | none =>
      simp only []
      intro p hp
      have hp2 : p ∈ st2.popPhases := by
        rw [← finalPhase_popPhases opts st2]
        exact hp
      exact runBody_phase_mem opts revive st1 p (by rw [hrb]; exact hp2)

/-- Amended C6: throughout `importInto`, every queue-trimming phase
removes entries only from the front of the pending-table queue (the
surviving queue is a suffix of the previous one), and every removed entry
was marked complete — but, contrary to the claim, nothing requires the
removed entry's row buffer to be empty (the source line 131 condition
checks only the complete marker, and the buffer is in fact typically
non-empty since it is never truncated). -/
theorem claim6_amended (db : DB) (s : JsonStream) (opts : ImportOptions)
    (revive : JsVal → JsVal) :
    ∀ p ∈ (importInto db s opts revive).popPhases,
      ∃ k, p.2 = p.1.drop k ∧ ∀ te ∈ p.1.take k, te.complete = true := by
  unfold importInto
  cases hload : loadUntilWeGotEnoughData s with
  | error e2 => exact fun p hp => absurd hp (List.not_mem_nil p)
  | ok s2 =>
    simp only []
    unfold importIntoLoaded
    by_cases h1 : opts.acceptNameDiff = false ∧
        (s2.result.data.getD emptyDbExport).databaseName ≠ some db.name
    · rw [if_pos h1]
      exact fun p hp => absurd hp (List.not_mem_nil p)
    · rw [if_neg h1]
      by_cases h2 : opts.acceptVersionDiff = false ∧
          (s2.result.data.getD emptyDbExport).databaseVersion ≠ some db.verno
      · rw [if_pos h2]
        exact fun p hp => absurd hp (List.not_mem_nil p)
      · rw [if_neg h2]
        have hl1 : (invokeCb opts (initState db s2)).1.popPhases = [] :=
          invokeCb_fst_popPhases opts (initState db s2)
        cases hcb : invokeCb opts (initState db s2) with
        | mk st1 b =>
          rw [hcb] at hl1
          cases b with
          | true => exact fun p hp => absurd (hl1 ▸ hp) (List.not_mem_nil p)
          | false =>
            intro p hp
            rcases stage2_phase_mem opts revive st1 p hp with h | h
            · exact absurd (hl1 ▸ h) (List.not_mem_nil p)
            · exact h

/-- Closed witness for C6 (amended): the final trimming phase of
scenario A removes the (complete, still two-rows-buffered) entry of
table `t` from the front, leaving the empty queue — a suffix at drop
index 1, every removed entry complete. -/
theorem claim6_witness :
    ∃ k, ([] : List TableExport) =
        ([⟨"t", true, some [.num 1, .num 2], true⟩] : List TableExport).drop k ∧
      ∀ te ∈ ([⟨"t", true, some [.num 1, .num 2], true⟩] :
          List TableExport).take k, te.complete = true :=
  claim6_amended db_A streamA opts_A id
    ([⟨"t", true, some [.num 1, .num 2], true⟩], []) (by decide)

/-! ## C5: missing-table tolerance -/

/-- `acceptMissingTables` enabled, all other options default. -/
def c5opts : ImportOptions := { acceptMissingTables := true }

/-- All options default (no override). -/
def c5optsNo : ImportOptions := {}

/-- The name and declared primary key of a target table, when declared. -/
def tableShape (db : DB) (n : String) : Option (String × String) :=
  (db.table n).map (fun t => (t.name, t.primKeySrc))

/-- A `data` entry the import loop can process cleanly: its rows buffer is
parsed, its table occurs in the manifest, and — unless it is the missing
table `m` — the target declares it with a matching primary key. -/
def entryOK (db : DB) (ms : List TableSchema) (m : String) (te : TableExport) : Bool :=
  te.rows.isSome &&
  match ms.find? (fun t => t.name = te.tableName) with
  | none => false
  | some ts =>
    if te.tableName = m then true
    else
      match tableShape db te.tableName with
      | none => false
      | some pr => decide (firstField ts.schema = pr.2)

/-- A `data` entry naming `m` that the inner pass does not skip. -/
def missingHit (m : String) (te : TableExport) : Bool :=
  decide (te.tableName = m) &&
    !(te.complete && decide (te.rows = some ([] : List JsVal)))

/-- The batch the import writes for one entry when no filter is
configured. -/
def expectedEntry (revive : JsVal → JsVal) (te : TableExport) (rs : List JsVal) :
    LogEntry :=
  if te.inbound then
    ⟨te.tableName, te.inbound, rs.map revive, rs.map revive, none⟩
  else
    ⟨te.tableName, te.inbound, rs.map revive, (rs.map revive).map JsVal.sndOf,
      some ((rs.map revive).map JsVal.fstOf)⟩

/-- The writes a single clean pass performs: one batch per entry, in
order, skipping entries that are complete and empty and entries of the
missing table `m`. -/
def expectedLog (revive : JsVal → JsVal) (m : String) :
    List TableExport → List LogEntry
  | [] => []
  | te :: rest =>
    match te.rows with
    | none => []
    | some rs =>
      if te.complete = true ∧ rs = [] then expectedLog revive m rest
      else if te.tableName = m then expectedLog revive m rest
      else expectedEntry revive te rs :: expectedLog revive m rest

theorem find?_name_map (g : DBTable → DBTable)
    (hg : ∀ t, (g t).name = t.name ∧ (g t).primKeySrc = t.primKeySrc)
    (n2 : String) :
    ∀ l : List DBTable,
      ((l.map g).find? (fun t => t.name = n2)).map (fun t => (t.name, t.primKeySrc)) =
        (l.find? (fun t => t.name = n2)).map (fun t => (t.name, t.primKeySrc)) := by
  intro l
  induction l with
  | nil => rfl
  | cons t rest ih =>
    rcases hg t with ⟨h1, h2⟩
    simp only [List.map_cons, List.find?_cons]
    by_cases hn : t.name = n2
    · rw [show (decide ((g t).name = n2)) = true by simp [h1, hn],
        show (decide (t.name = n2)) = true by simp [hn]]
      simp [h1, h2]
    · rw [show (decide ((g t).name = n2)) = false by simp [h1, hn],
        show (decide (t.name = n2)) = false by simp [hn]]
      simp only []
      exact ih

theorem tableShape_writeBatch (db : DB) (n : String) (b : Batch) (n2 : String) :
    tableShape (db.writeBatch n b) n2 = tableShape db n2 := by
  unfold tableShape DB.table DB.writeBatch
  exact find?_name_map _ (fun t => by by_cases h : t.name = n <;> simp [h]) n2 db.tables

theorem tableShape_clearTable (db : DB) (n : String) (n2 : String) :
    tableShape (db.clearTable n) n2 = tableShape db n2 := by
  unfold tableShape DB.table DB.clearTable
  exact find?_name_map _ (fun t => by by_cases h : t.name = n <;> simp [h]) n2 db.tables

theorem writeStep_tableShape (opts : ImportOptions) (revive : JsVal → JsVal)
    (te : TableExport) (rows : List JsVal) (st1 : ImpState) (n : String) :
    tableShape (writeStep opts revive te rows st1).db n = tableShape st1.db n := by
  unfold writeStep
  cases hc : computeBatch opts revive te.tableName te.inbound rows with
  | mk rows2 batch =>
    cases hcl : opts.clearTablesBeforeImport with
    | true =>
      simp only [hcl, if_true, ite_true]
      rw [tableShape_writeBatch, tableShape_clearTable]
    | false =>
      simp only [hcl, Bool.false_eq_true, if_false, ite_false]
      rw [tableShape_writeBatch]

theorem writeStep_d (opts : ImportOptions) (revive : JsVal → JsVal)
    (te : TableExport) (rows : List JsVal) (st1 : ImpState) :
    (writeStep opts revive te rows st1).d = st1.d := by
  unfold writeStep
  cases hc : computeBatch opts revive te.tableName te.inbound rows with
  | mk rows2 batch => cases hcl : opts.clearTablesBeforeImport <;> simp [hcl]

theorem writeStep_pending (opts : ImportOptions) (revive : JsVal → JsVal)
    (te : TableExport) (rows : List JsVal) (st1 : ImpState) :
    (writeStep opts revive te rows st1).pending = st1.pending := by
  unfold writeStep
  cases hc : computeBatch opts revive te.tableName te.inbound rows with
  | mk rows2 batch => cases hcl : opts.clearTablesBeforeImport <;> simp [hcl]

theorem popLoop_isSome : ∀ (es : List TableExport),
    (∀ te ∈ es, te.rows.isSome = true) → ∃ arr2, popLoop es = some arr2 := by
  intro es
  induction es with
  | nil => exact fun h => ⟨[], rfl⟩
  | cons te rest ih =>
    intro h
    rcases Option.isSome_iff_exists.mp (h te (List.mem_cons_self te rest)) with ⟨rs, hr⟩
    unfold popLoop
    rw [hr]
    simp only []
    by_cases hc : te.complete = true
    · rw [if_pos hc]
      exact ih (fun te2 h2 => h te2 (List.mem_cons_of_mem te h2))
    · rw [if_neg hc]
      exact ⟨te :: rest, rfl⟩

theorem afterPop_pending_nil (st1 : ImpState) (arr2 : List TableExport)
    (h : st1.pending = []) : (afterPop st1 arr2).pending = [] := by
  unfold afterPop
  simp only []
  split
  · exact h
  · rename_i hcond
    exact absurd h hcond

theorem processEntry_cb_none (opts : ImportOptions) (revive : JsVal → JsVal)
    (te : TableExport) (rows : List JsVal) (st : ImpState)
    (h : opts.progressCallback = none) :
    processEntry opts revive te rows st = processEntryAfterCb opts revive te rows st := by
  unfold processEntry
  rw [invokeCb_none h]

theorem table_of_shape_none {db : DB} {n : String} (h : tableShape db n = none) :
    db.table n = none := by
  unfold tableShape at h
  exact (Option.map_eq_none').mp h

theorem table_of_shape_some {db : DB} {n : String} {pr : String × String}
    (h : tableShape db n = some pr) :
    ∃ tbl, db.table n = some tbl ∧ tbl.primKeySrc = pr.2 := by
  unfold tableShape at h
  rcases (Option.map_eq_some').mp h with ⟨tbl, h1, h2⟩
  exact ⟨tbl, h1, by rw [← h2]⟩

theorem entryOK_dest (db : DB) (ms : List TableSchema) (m : String)
    (te : TableExport) (h : entryOK db ms m te = true) :
    ∃ rs, te.rows = some rs ∧
      ∃ ts, ms.find? (fun t => t.name = te.tableName) = some ts ∧
        (te.tableName = m ∨
          (te.tableName ≠ m ∧ ∃ pr, tableShape db te.tableName = some pr ∧
            firstField ts.schema = pr.2)) := by
  unfold entryOK at h
  rw [Bool.and_eq_true] at h
  obtain ⟨hrs, h2⟩ := h
  rcases Option.isSome_iff_exists.mp hrs with ⟨rs, hr⟩
  refine ⟨rs, hr, ?_⟩
  revert h2
  cases hfind : ms.find? (fun t => t.name = te.tableName) with
  | none => intro h2; exact Bool.noConfusion h2
  | some ts =>
    simp only []
    intro h2
    refine ⟨ts, rfl, ?_⟩
    by_cases hm2 : te.tableName = m
    · exact Or.inl hm2
    · rw [if_neg hm2] at h2
      revert h2
      cases hsh : tableShape db te.tableName with
      | none => intro h2; exact Bool.noConfusion h2
      | some pr =>
        simp only []
        intro h2
        exact Or.inr ⟨hm2, pr, rfl, of_decide_eq_true h2⟩

theorem innerPass_clean (opts : ImportOptions) (revive : JsVal → JsVal)
    (m : String) (ms : List TableSchema) (db0 : DB)
    (hcb : opts.progressCallback = none)
    (hmt : opts.acceptMissingTables = true)
    (hpk : opts.acceptChangedPrimaryKey = false)
    (hfil : opts.filter = none)
    (hm : tableShape db0 m = none) :
    ∀ (es : List TableExport) (st : ImpState),
      st.d.tables = some ms →
      (∀ n, tableShape st.db n = tableShape db0 n) →
      es.all (entryOK db0 ms m) = true →
      ∃ st2, innerPass opts revive es st = (st2, none) ∧
        st2.log = st.log ++ expectedLog revive m es ∧
        st2.d = st.d ∧ st2.pending = st.pending ∧
        (∀ n, tableShape st2.db n = tableShape db0 n) := by
  intro es
  induction es with
  | nil =>
    intro st hms hsh hall
    exact ⟨st, rfl, by simp [expectedLog], rfl, rfl, hsh⟩
  | cons te rest ih =>
    intro st hms hsh hall
    rw [List.all_cons, Bool.and_eq_true] at hall
    obtain ⟨hok, hrest⟩ := hall
    rcases entryOK_dest db0 ms m te hok with ⟨rs, hr, ts, hfind, hcase⟩
    unfold innerPass
    rw [hr]
    simp only []
    by_cases hskip : te.complete = true ∧ rs = []
    · rw [if_pos hskip]
      rcases ih st hms hsh hrest with ⟨st2, h1, h2, h3, h4, h5⟩
      refine ⟨st2, h1, ?_, h3, h4, h5⟩
      rw [h2]
      have hexp : expectedLog revive m (te :: rest) = expectedLog revive m rest := by
        simp only [expectedLog]
        rw [hr]
        simp only []
        rw [if_pos hskip]
      rw [hexp]
    · rw [if_neg hskip]
      rw [processEntry_cb_none opts revive te rs st hcb]
      have hpe : processEntryAfterCb opts revive te rs st =
          (if te.tableName = m then (st, none)
           else (writeStep opts revive te rs st, none)) := by
        unfold processEntryAfterCb
        rw [hms]
        simp only [Option.getD_some]
        rw [hfind]
        simp only []
        rcases hcase with hm2 | ⟨hm2, pr, hsh0, hpk2⟩
        · have htn : st.db.table te.tableName = none := by
            apply table_of_shape_none
            rw [hsh te.tableName, hm2]
            exact hm
          rw [htn]
          simp only []
          rw [if_neg (by simp [hmt]), if_pos hm2]
        · have hshst : tableShape st.db te.tableName = some pr := by
            rw [hsh]
            exact hsh0
          rcases table_of_shape_some hshst with ⟨tbl, htbl, hps⟩
          rw [htbl]
          simp only []
          rw [if_neg (by rw [hpk2, hps]; simp [hpk]), if_neg hm2]
      rw [hpe]
      by_cases hm2 : te.tableName = m
      · rw [if_pos hm2]
        simp only []
        rcases ih st hms hsh hrest with ⟨st2, h1, h2, h3, h4, h5⟩
        refine ⟨st2, h1, ?_, h3, h4, h5⟩
        rw [h2]
        have hexp : expectedLog revive m (te :: rest) = expectedLog revive m rest := by
          simp only [expectedLog]
          rw [hr]
          simp only []
          rw [if_neg hskip, if_pos hm2]
        rw [hexp]
      · rw [if_neg hm2]
        simp only []
        have hms3 : (writeStep opts revive te rs st).d.tables = some ms := by
          rw [writeStep_d]
          exact hms
        have hsh3 : ∀ n, tableShape (writeStep opts revive te rs st).db n =
            tableShape db0 n := fun n => by
          rw [writeStep_tableShape]
          exact hsh n
        rcases ih (writeStep opts revive te rs st) hms3 hsh3 hrest with
          ⟨st2, h1, h2, h3, h4, h5⟩
        refine ⟨st2, h1, ?_, ?_, ?_, h5⟩
        · rw [h2, writeStep_log, List.append_assoc]
          have hexp : expectedLog revive m (te :: rest) =
              expectedEntry revive te rs :: expectedLog revive m rest := by
            simp only [expectedLog]
            rw [hr]
            simp only []
            rw [if_neg hskip, if_neg hm2]
          rw [hexp, List.singleton_append]
          have hentry : (⟨te.tableName, te.inbound,
              (computeBatch opts revive te.tableName te.inbound rs).1,
              (computeBatch opts revive te.tableName te.inbound rs).2.values,
              (computeBatch opts revive te.tableName te.inbound rs).2.keys⟩ :
                LogEntry) = expectedEntry revive te rs := by
            unfold computeBatch expectedEntry
            rw [hfil]
            cases hib : te.inbound <;> simp [hib]
          rw [hentry]
        · rw [h3, writeStep_d]
        · rw [h4, writeStep_pending]

theorem innerPass_missing (opts : ImportOptions) (revive : JsVal → JsVal)
    (m : String) (ms : List TableSchema) (db0 : DB)
    (hcb : opts.progressCallback = none)
    (hmt : opts.acceptMissingTables = false)
    (hpk : opts.acceptChangedPrimaryKey = false)
    (hm : tableShape db0 m = none) :
    ∀ (es : List TableExport) (st : ImpState),
      st.d.tables = some ms →
      (∀ n, tableShape st.db n = tableShape db0 n) →
      es.all (entryOK db0 ms m) = true →
      es.any (missingHit m) = true →
      ∃ st2, innerPass opts revive es st = (st2, some (.missingTable m)) := by
  intro es
  induction es with
  | nil =>
    intro st _ _ _ hany
    exact absurd hany (by simp)
  | cons te rest ih =>
    intro st hms hsh hall hany
    rw [List.all_cons, Bool.and_eq_true] at hall
    obtain ⟨hok, hrest⟩ := hall
    rcases entryOK_dest db0 ms m te hok with ⟨rs, hr, ts, hfind, hcase⟩
    rw [List.any_cons, Bool.or_eq_true] at hany
    unfold innerPass
    rw [hr]
    simp only []
    by_cases hskip : te.complete = true ∧ rs = []
    · rw [if_pos hskip]
      have hmh : missingHit m te = false := by
        unfold missingHit
        have hcomp : (te.complete && decide (te.rows = some ([] : List JsVal))) = true := by
          rw [hskip.1, hr, hskip.2]
          simp
        rw [hcomp]
        simp
      rcases hany with h | h
      · rw [hmh] at h
        exact Bool.noConfusion h
      · exact ih st hms hsh hrest h
    · rw [if_neg hskip]
      rw [processEntry_cb_none opts revive te rs st hcb]
      by_cases hm2 : te.tableName = m
      · have hpe : processEntryAfterCb opts revive te rs st =
            (st, some (.missingTable te.tableName)) := by
          unfold processEntryAfterCb
          rw [hms]
          simp only [Option.getD_some]
          rw [hfind]
          simp only []
          have htn : st.db.table te.tableName = none := by
            apply table_of_shape_none
            rw [hsh te.tableName, hm2]
            exact hm
          rw [htn]
          simp only []
          rw [if_pos hmt]
        rw [hpe]
        refine ⟨st, ?_⟩
        simp only []
        rw [hm2]
      · rcases hcase with h | ⟨_, pr, hsh0, hpk2⟩
        · exact absurd h hm2
        have hshst : tableShape st.db te.tableName = some pr := by
          rw [hsh]
          exact hsh0
        rcases table_of_shape_some hshst with ⟨tbl, htbl, hps⟩
        have hpe : processEntryAfterCb opts revive te rs st =
            (writeStep opts revive te rs st, none) := by
          unfold processEntryAfterCb
          rw [hms]
          simp only [Option.getD_some]
          rw [hfind]
          simp only []
          rw [htbl]
          simp only []
          rw [if_neg (by rw [hpk2, hps]; simp [hpk])]
        rw [hpe]
        simp only []
        have hany2 : rest.any (missingHit m) = true := by
          rcases hany with h | h
          · unfold missingHit at h
            rw [Bool.and_eq_true] at h
            exact absurd (of_decide_eq_true h.1) hm2
          · exact h
        exact ih (writeStep opts revive te rs st)
          (by rw [writeStep_d]; exact hms)
          (fun n => by rw [writeStep_tableShape]; exact hsh n)
          hrest hany2

theorem outerLoopAux_one (opts : ImportOptions) (revive : JsVal → JsVal)
    (st st1 : ImpState) (h : outerBody opts revive st = (st1, none))
    (hp : st1.pending = []) :
    ∀ n : Nat, outerLoopAux opts revive (n + 1) st = (st1, none) := by
  intro n
  unfold outerLoopAux
  rw [h]
  simp only []
  rw [if_pos hp]

theorem importAll_single_pass (opts : ImportOptions) (revive : JsVal → JsVal)
    (st1 : ImpState) (es : List TableExport) (st2 : ImpState)
    (arr2 : List TableExport)
    (hpend : st1.pending = [])
    (harr : st1.d.dataArr = some es)
    (hinner : innerPass opts revive es st1 = (st2, none))
    (hd2 : st2.d = st1.d) (hp2 : st2.pending = st1.pending)
    (hpop : popLoop es = some arr2) :
    importAll opts revive st1 = (afterPop st2 arr2, none) := by
  have hob : outerBody opts revive st1 = (afterPop st2 arr2, none) := by
    unfold outerBody
    rw [harr]
    simp only []
    rw [hinner]
    simp only []
    rw [hd2, harr]
    simp only [Option.getD_some]
    rw [hpop]
  unfold importAll
  exact outerLoopAux_one opts revive st1 _ hob
    (afterPop_pending_nil st2 arr2 (hp2.trans hpend)) _

theorem stage2_ok_of_importAll (opts : ImportOptions) (revive : JsVal → JsVal)
    (st1 st3 : ImpState)
    (hNT : opts.noTransaction = false) (hcb : opts.progressCallback = none)
    (him : importAll opts revive st1 = (st3, none)) :
    stage2 opts revive st1 =
      mkResult none { st3 with progress := { st3.progress with done := true } } false := by
  unfold stage2 runBody
  rw [hNT]
  simp only [Bool.false_eq_true, if_false, ite_false]
  rw [him]
  simp only []
  unfold finalPhase
  rw [invokeCb_none hcb]

theorem stage2_err_of_importAll (opts : ImportOptions) (revive : JsVal → JsVal)
    (st1 st3 : ImpState) (err : ImportError)
    (hNT : opts.noTransaction = false)
    (him : importAll opts revive st1 = (st3, some err)) :
    stage2 opts revive st1 = mkResult (some err) { st3 with db := st1.db } false := by
  unfold stage2 runBody
  rw [hNT]
  simp only [Bool.false_eq_true, if_false, ite_false]
  rw [him]

theorem importIntoLoaded_main (db : DB) (s2 : JsonStream) (opts : ImportOptions)
    (revive : JsVal → JsVal) (hcb : opts.progressCallback = none)
    (hname2 : ¬(opts.acceptNameDiff = false ∧
      (s2.result.data.getD emptyDbExport).databaseName ≠ some db.name))
    (hver2 : ¬(opts.acceptVersionDiff = false ∧
      (s2.result.data.getD emptyDbExport).databaseVersion ≠ some db.verno)) :
    importIntoLoaded db s2 opts revive = stage2 opts revive (initState db s2) := by
  unfold importIntoLoaded
  rw [if_neg hname2, if_neg hver2, invokeCb_none hcb]

theorem validateHeader_ok (f : ExportFile) (d : DatabaseExport)
    (hfmt : f.formatName = some "dexie")
    (hver : versionTooBig f.formatVersion = false)
    (hdata : f.data = some d)
    (hn : strFalsy d.databaseName = false)
    (hv : natFalsy d.databaseVersion = false)
    (ht : d.tables.isNone = false) :
    validateHeader f = .ok () := by
  unfold validateHeader
  rw [if_neg (by simp [hfmt]), if_neg (by simp [hver]), hdata]
  simp only []
  rw [if_neg (by simp [hn]), if_neg (by simp [hv]), if_neg (by simp [ht])]

theorem loadUntil_nil (f : ExportFile) (hvh : validateHeader f = .ok ()) :
    loadUntilWeGotEnoughData ⟨f, []⟩ = .ok ⟨f, []⟩ := by
  unfold loadUntilWeGotEnoughData pullPhase pullPhaseAux
  simp only []
  rw [hvh]

/-- Amended C5: for every import of an export whose data is entirely
delivered during the initial load (no chunk pending when the import loop
starts), whose manifest covers every `data` entry, and which names a
table `m` absent from the target while every other `data` table exists in
the target with a matching primary key: with `acceptMissingTables` the
operation completes successfully, writes none of the missing table's rows
and writes exactly one batch per remaining (non-skipped) entry, in order
— fully importing every other table; without the override it fails with
the missing-table error.  (The restriction to fully pre-delivered exports
is forced by the counterexample: rows arriving with the final pull are
dropped, so a multi-chunk export's other tables need not be imported in
full.)  The target's name is nonempty and its version nonzero, so the
header — which states them — passes the loader's truthiness checks. -/
theorem claim5_amended (db : DB) (fl : ExportFile) (revive : JsVal → JsVal)
    (m : String) (ms : List TableSchema) (es : List TableExport)
    (d : DatabaseExport)
    (hdata : fl.data = some d)
    (hfmt : fl.formatName = some "dexie")
    (hver : versionTooBig fl.formatVersion = false)
    (hname : d.databaseName = some db.name)
    (hverno : d.databaseVersion = some db.verno)
    (hnf : db.name ≠ "")
    (hv0 : db.verno ≠ 0)
    (hms : d.tables = some ms)
    (harr : d.dataArr = some es)
    (hm : tableShape db m = none)
    (hok : es.all (entryOK db ms m) = true) :
    ((importInto db ⟨fl, []⟩ c5opts revive).outcome = none ∧
      (importInto db ⟨fl, []⟩ c5opts revive).log = expectedLog revive m es) ∧
    (es.any (missingHit m) = true →
      (importInto db ⟨fl, []⟩ c5optsNo revive).outcome = some (.missingTable m)) := by
  have hvh : validateHeader fl = .ok () :=
    validateHeader_ok fl d hfmt hver hdata
      (by rw [hname]; simp [strFalsy, hnf])
      (by rw [hverno]; simp [natFalsy, hv0])
      (by simp [hms])
  have hload : loadUntilWeGotEnoughData ⟨fl, []⟩ = .ok ⟨fl, []⟩ := loadUntil_nil fl hvh
  have hist_d : (initState db ⟨fl, []⟩).d = d := by
    unfold initState
    simp [hdata]
  refine ⟨?_, ?_⟩
  · obtain ⟨st2, hin, hlog, hd2, hp2, hsh2⟩ :=
      innerPass_clean c5opts revive m ms db rfl rfl rfl rfl hm es
        (initState db ⟨fl, []⟩) (by rw [hist_d, hms]) (fun n => rfl) hok
    have hrows : ∀ te ∈ es, te.rows.isSome = true := by
      intro te hte
      have h2 := (List.all_eq_true.mp hok) te hte
      unfold entryOK at h2
      rw [Bool.and_eq_true] at h2
      exact h2.1
    obtain ⟨arr2, hpop⟩ := popLoop_isSome es hrows
    have him := importAll_single_pass c5opts revive (initState db ⟨fl, []⟩) es st2 arr2
      rfl (by rw [hist_d, harr]) hin hd2 hp2 hpop
    have hs2 := stage2_ok_of_importAll c5opts revive (initState db ⟨fl, []⟩)
      (afterPop st2 arr2) rfl rfl him
    have hil := importIntoLoaded_main db ⟨fl, []⟩ c5opts revive rfl
      (by simp [hdata, hname]) (by simp [hdata, hverno])
    have hrun : importInto db ⟨fl, []⟩ c5opts revive =
        mkResult none { afterPop st2 arr2 with
          progress := { (afterPop st2 arr2).progress with done := true } } false := by
      unfold importInto
      rw [hload]
      simp only []
      rw [hil, hs2]
    rw [hrun]
    refine ⟨rfl, ?_⟩
    show (afterPop st2 arr2).log = expectedLog revive m es
    rw [afterPop_log, hlog]
    show [] ++ expectedLog revive m es = expectedLog revive m es
    rw [List.nil_append]
  · intro hany
    obtain ⟨st2, hin⟩ :=
      innerPass_missing c5optsNo revive m ms db rfl rfl rfl hm es
        (initState db ⟨fl, []⟩) (by rw [hist_d, hms]) (fun n => rfl) hok hany
    have hob : outerBody c5optsNo revive (initState db ⟨fl, []⟩) =
        (st2, some (.missingTable m)) := by
      unfold outerBody
      rw [show (initState db ⟨fl, []⟩).d.dataArr = some es from by rw [hist_d, harr]]
      simp only []
      rw [hin]
    have him := importAll_of_body_err c5optsNo revive _ _ _ hob
    have hs2 := stage2_err_of_importAll c5optsNo revive (initState db ⟨fl, []⟩) st2 _
      rfl him
    have hil := importIntoLoaded_main db ⟨fl, []⟩ c5optsNo revive rfl
      (by simp [hdata, hname]) (by simp [hdata, hverno])
    unfold importInto
    rw [hload]
    simp only []
    rw [hil, hs2]
    rfl

/-- A fully pre-delivered export file with tables `t` (present in the
target `db_C`) and `m` (absent from it). -/
def fileF : ExportFile :=
  ⟨some "dexie", some 1,
   some ⟨some "db1", some 1, some [⟨"t", "id", 1⟩, ⟨"m", "id", 1⟩],
     some [⟨"t", true, some [.num 9], true⟩, ⟨"m", true, some [.num 7], true⟩]⟩⟩

/-- Closed witness for C5 (amended): a single-chunk export with tables
`t` (present) and `m` (absent from the target): with the override, the
run succeeds and writes exactly `t`'s batch; without it, it fails with
the missing-table error for `m`. -/
theorem claim5_witness :
    ((importInto db_C ⟨fileF, []⟩ c5opts id).outcome = none ∧
      (importInto db_C ⟨fileF, []⟩ c5opts id).log =
        expectedLog id "m"
          [⟨"t", true, some [.num 9], true⟩, ⟨"m", true, some [.num 7], true⟩]) ∧
    (importInto db_C ⟨fileF, []⟩ c5optsNo id).outcome = some (.missingTable "m") :=
  have h := claim5_amended db_C fileF id "m"
    [⟨"t", "id", 1⟩, ⟨"m", "id", 1⟩]
    [⟨"t", true, some [.num 9], true⟩, ⟨"m", true, some [.num 7], true⟩]
    ⟨some "db1", some 1, some [⟨"t", "id", 1⟩, ⟨"m", "id", 1⟩],
      some [⟨"t", true, some [.num 9], true⟩, ⟨"m", true, some [.num 7], true⟩]⟩
    rfl rfl rfl rfl rfl (by decide) (by decide) rfl rfl (by decide) (by decide)
  ⟨h.1, h.2 (by decide)⟩

end DexieImport

